import Mathlib

/-!
Shallow embedding of the merge/join planning and orchestration layer of
cuDF (`python/cudf/cudf/core/join/join.py`), together with proofs about
its behaviour.

The orchestration file `join.py` is embedded definition by definition.
Collaborator code that `join.py` calls but that is not part of the
reviewed sources (`_join_helpers._Indexer`, `Frame.copy`, `Frame._gather`,
`Column.fillna`, the native sort/row-selection engine) is modelled from
the specification's description of those interfaces; each such definition
carries a doc comment saying so.
-/

set_option autoImplicit false

namespace CudfJoin

deriving instance DecidableEq for Except

/-- Column names.  Python allows `None` as a column name; we model an
unnamed column by the empty string (both are falsy in Python). -/
abbrev ColName := String

/-- Dtypes, reduced to what the join planner inspects: categorical versus
everything else.  `other s` carries the dtype's name. -/
inductive Dtype where
  | cat : Dtype
  | other : String → Dtype
  deriving DecidableEq, Repr

/-- Modelled from the spec: a column is a dtype together with a list of
optional cell values (`none` is a null).  Cell values are integers; the
join planner never inspects cell contents beyond equality/order. -/
structure Column where
  dtype : Dtype
  values : List (Option Int)
  deriving DecidableEq, Repr

/-- Modelled from the spec: `Column.astype` returns a fresh column of the
requested dtype with the same cells (dtype bookkeeping is all the planner
relies on). -/
def Column.astype (c : Column) (d : Dtype) : Column :=
  { c with dtype := d }

/-- Modelled from the spec: `fillna` fills each null of `c` with the cell
at the same position of `o`. -/
def Column.fillna (c o : Column) : Column :=
  let vs := (List.range c.values.length).map fun i =>
    match c.values.getD i none with
    | some v => some v
    | none => o.values.getD i none
  { c with values := vs }

/-- A default (empty, non-categorical) column, used as the total-function
stand-in for Python's `KeyError` when a name is absent. -/
def Column.nullCol : Column :=
  { dtype := Dtype.other "", values := [] }

/-- Ordered name-to-column mapping with Python-`dict` assignment
semantics: assignment to an existing key replaces the value in place,
assignment to a fresh key appends. -/
def alSet (l : List (ColName × Column)) (n : ColName) (c : Column) :
    List (ColName × Column) :=
  if n ∈ l.map Prod.fst then
    l.map (fun p => if p.1 = n then (n, c) else p)
  else
    l ++ [(n, c)]

/-- Python classes that can reach the merge entry point.  `MultiIndex`
subclasses `Index`; `genericIndex s` stands for the concrete `Index`
subclasses (`Int64Index`, `RangeIndex`, ...). -/
inductive PyClass where
  | dataFrame : PyClass
  | series : PyClass
  | multiIndex : PyClass
  | genericIndex : String → PyClass
  deriving DecidableEq, Repr

/-- Python `isinstance(x, cudf.MultiIndex)`. -/
def PyClass.isMultiIndex : PyClass → Bool
  | PyClass.multiIndex => true
  | _ => false

/-- Python `isinstance(x, cudf.Index)` (`MultiIndex` subclasses `Index`). -/
def PyClass.isIndex : PyClass → Bool
  | PyClass.multiIndex => true
  | PyClass.genericIndex _ => true
  | _ => false

/-- Python `isinstance(x, cudf.Series)`. -/
def PyClass.isSeries : PyClass → Bool
  | PyClass.series => true
  | _ => false

/-- Modelled from the spec: a table (cuDF `Frame`) is an ordered mapping
of column name to column (`_data`), an optional index (itself an ordered
mapping of named levels, `none` for a default positional index), and the
Python class of the object. -/
structure Frame where
  data : List (ColName × Column)
  index : Option (List (ColName × Column))
  cls : PyClass
  deriving DecidableEq, Repr

/-- Column names of a frame, in order (`iter(frame._data)`). -/
def Frame.names (f : Frame) : List ColName :=
  f.data.map Prod.fst

/-- Total lookup of a data column (`frame._data[name]`). -/
def Frame.dataGet (f : Frame) (n : ColName) : Column :=
  (f.data.lookup n).getD Column.nullCol

/-- Index level names of a frame (`frame.index.names`); a frame with a
default positional index has no levels. -/
def Frame.indexNames (f : Frame) : List ColName :=
  ((f.index.getD []).map Prod.fst)

/-- Series name: the name of a Series' single data column. -/
def Frame.seriesName (f : Frame) : ColName :=
  (f.names.headD "")

/-- The empty `Frame()` constructed by `MergeSemi._merge_results`. -/
def Frame.empty : Frame :=
  { data := [], index := none, cls := PyClass.dataFrame }

/-- Modelled from the spec: a KeyDescriptor (`_join_helpers._Indexer`),
identifying one join key: a named data column or a named index level,
tagged with the flag `index`. -/
structure Indexer where
  name : ColName
  index : Bool
  deriving DecidableEq, Repr

/-- Modelled from the spec: `_Indexer.get` reads the key's column from a
frame (data column, or index level when `index` is set). -/
def Indexer.get (k : Indexer) (f : Frame) : Column :=
  if k.index then ((f.index.getD []).lookup k.name).getD Column.nullCol
  else f.dataGet k.name

/-- Modelled from the spec: `_Indexer.set` rebinds the key's column in a
frame's own mapping (data mapping, or index mapping when `index` is set). -/
def Indexer.set (k : Indexer) (f : Frame) (c : Column) : Frame :=
  if k.index then { f with index := f.index.map (fun ix => alSet ix k.name c) }
  else { f with data := alSet f.data k.name c }

/-- Modelled from the spec: `_Indexer.get_numeric_index` is the key's
position in the frame's flattened column list (index levels first, then
data columns). -/
def Indexer.get_numeric_index (k : Indexer) (f : Frame) : Nat :=
  if k.index then ((f.indexNames).indexOf k.name)
  else (f.index.getD []).length + (f.names).indexOf k.name

/-- A Python value that is either a string or a list of strings, as the
`on` / `left_on` / `right_on` parameters may be. -/
inductive PySeq where
  | str : String → PySeq
  | list : List String → PySeq
  deriving DecidableEq, Repr

/-- Python truthiness of a string-or-list value. -/
def PySeq.truthy : PySeq → Bool
  | PySeq.str s => s ≠ ""
  | PySeq.list l => l ≠ []

/-- Python truthiness of an optional string-or-list value. -/
def pyTruthy : Option PySeq → Bool
  | none => false
  | some s => s.truthy

/-- Helpers `_coerce_to_tuple` / `_coerce_to_list`: wrap a lone string, keep a
list. -/
def PySeq.toList : PySeq → List String
  | PySeq.str s => [s]
  | PySeq.list l => l

/-- First position at which `needle` occurs as a contiguous sublist of
`hay` (`str.index`, on character lists); 0 when absent (callers guard
with containment). -/
def subIndexAux : List Char → List Char → Nat
  | _, [] => 0
  | needle, c :: rest =>
    if needle.isPrefixOf (c :: rest) then 0 else subIndexAux needle rest + 1

/-- Python `name in x` for a string-or-list `x`: substring containment
for strings, membership for lists. -/
def PySeq.contains (x : PySeq) (name : String) : Bool :=
  match x with
  | PySeq.str s => name.data.isPrefixOf s.data ||
      decide (∃ i ∈ List.range s.data.length,
        name.data.isPrefixOf (s.data.drop i))
  | PySeq.list l => name ∈ l

/-- Python `x.index(name)` for a string-or-list `x`: first substring
position for strings, first list position for lists. -/
def PySeq.indexOfName (x : PySeq) (name : String) : Nat :=
  match x with
  | PySeq.str s => subIndexAux name.data s.data
  | PySeq.list l => l.indexOf name

/-- Python truthiness of an optional string (`None` and `""` are falsy). -/
def strTruthy : Option String → Bool
  | none => false
  | some s => s ≠ ""

/-- Python string interpolation of an optional string: `f"{x}"` renders
`None` as `"None"`. -/
def pyStr : Option String → String
  | none => "None"
  | some s => s

/-- The caller-facing parameters of one merge invocation (the keyword
arguments of `cudf.core.join.join.merge`). -/
structure MergeParams where
  on_ : Option PySeq
  left_on : Option PySeq
  right_on : Option PySeq
  left_index : Bool
  right_index : Bool
  how : String
  sort : Bool
  lsuffix : Option String
  rsuffix : Option String
  suffixes : Option (String × String)
  deriving DecidableEq, Repr

/-- The overlap loop of `Merge._validate_merge_params` (`for name in
same_named_columns`).  `name == left_on == right_on` skips the name;
when both `left_on` and `right_on` are truthy the loop body never raises
(its inner identically-positioned-key test only decides between `continue`
and falling off the body, which behave the same); otherwise a name raises
when neither suffix is truthy. -/
def overlap_check (p : MergeParams) (lsuffix rsuffix : String) :
    List ColName → Except String Unit
  | [] => Except.ok ()
  | name :: rest =>
    if p.left_on = some (PySeq.str name) ∧
       p.right_on = some (PySeq.str name) then
      overlap_check p lsuffix rsuffix rest
    else if pyTruthy p.left_on ∧ pyTruthy p.right_on then
      overlap_check p lsuffix rsuffix rest
    else if ¬(lsuffix ≠ "" ∨ rsuffix ≠ "") then
      Except.error
        "there are overlapping columns but lsuffix and rsuffix are not defined"
    else
      overlap_check p lsuffix rsuffix rest

/-- Transcription of `Merge._validate_merge_params`, check for check:
unsupported `how`; `on` together with `left_on`/`right_on`; unnamed
Series; no common columns when nothing was specified; overlapping
non-key columns without suffixes (with `suffixes`, when supplied,
unpacked into the loop's local suffixes). -/
def validate_merge_params (lhs rhs : Frame) (p : MergeParams) :
    Except String Unit :=
  if ¬(p.how = "left" ∨ p.how = "inner" ∨ p.how = "outer" ∨
       p.how = "leftanti" ∨ p.how = "leftsemi") then
    Except.error (p.how ++ " merge not supported yet")
  else if pyTruthy p.on_ ∧ (pyTruthy p.left_on ∨ pyTruthy p.right_on) then
    Except.error "Can only pass argument on OR left_on and right_on"
  else if (lhs.cls.isSeries ∧ lhs.seriesName = "") ∨
          (rhs.cls.isSeries ∧ rhs.seriesName = "") then
    Except.error "Can not merge on unnamed Series"
  else
    let same_named_columns := lhs.names.filter (fun n => n ∈ rhs.names)
    if ¬(p.left_index ∨ p.right_index) ∧
       ¬(pyTruthy p.left_on ∨ pyTruthy p.right_on) ∧
       same_named_columns.length = 0 then
      Except.error "No common columns to perform merge on"
    else
      let lsuffix := if p.suffixes.isSome then (p.suffixes.getD ("", "")).1
                     else p.lsuffix.getD ""
      let rsuffix := if p.suffixes.isSome then (p.suffixes.getD ("", "")).2
                     else p.rsuffix.getD ""
      overlap_check p lsuffix rsuffix same_named_columns

/-- Transcription of `Merge._compute_join_keys`: build the positionally paired key lists;
index-level keys come before explicitly named column keys; with nothing
explicit, `on` or the set intersection of column names is used on both
sides. -/
def compute_join_keys (lhs rhs : Frame) (p : MergeParams) :
    Except String (List Indexer × List Indexer) :=
  let keys : List Indexer × List Indexer :=
    if p.left_index ∨ p.right_index ∨ pyTruthy p.left_on ∨ pyTruthy p.right_on
    then
      ((if p.left_index then
          lhs.indexNames.map (fun n => Indexer.mk n true) else []) ++
       (if pyTruthy p.left_on then
          ((p.left_on.getD (PySeq.list [])).toList).map
            (fun n => Indexer.mk n false) else []),
       (if p.right_index then
          rhs.indexNames.map (fun n => Indexer.mk n true) else []) ++
       (if pyTruthy p.right_on then
          ((p.right_on.getD (PySeq.list [])).toList).map
            (fun n => Indexer.mk n false) else []))
    else
      let on_names := match p.on_ with
        | some s => s.toList
        | none => lhs.names.filter (fun n => n ∈ rhs.names)
      (on_names.map (fun n => Indexer.mk n false),
       on_names.map (fun n => Indexer.mk n false))
  if keys.1.length ≠ keys.2.length then
    Except.error "Merge operands must have same number of join key columns"
  else Except.ok keys

/-- One pass over the positionally paired keys that conditionally rewrites
the slot of the picked key (left or right) in a frame; the shape shared by
`_match_key_dtypes`, `_restore_categorical_keys` and the outer-join key
fill of `_merge_results`. -/
def keyFold (pick : Indexer × Indexer → Indexer)
    (cond : Indexer × Indexer → Bool)
    (val : Indexer × Indexer → Frame → Column)
    (keys : List (Indexer × Indexer)) (f : Frame) : Frame :=
  keys.foldl (fun acc q => if cond q then (pick q).set acc (val q acc) else acc) f

/-- Transcription of `Merge._match_key_dtypes`: shallow-copy both frames and, for each key
pair whose columns the dtype policy (`_match_join_keys`, an oracle here)
resolves to a common dtype, rebind the cast key columns on the copies.
Reads come from the original frames. -/
def match_key_dtypes (matchKeys : Column → Column → String → Option Dtype)
    (how : String) (keys : List (Indexer × Indexer)) (lhs rhs : Frame) :
    Frame × Frame :=
  (keyFold Prod.fst
     (fun q => (matchKeys (q.1.get lhs) (q.2.get rhs) how).isSome)
     (fun q _ => (q.1.get lhs).astype
        ((matchKeys (q.1.get lhs) (q.2.get rhs) how).getD (Dtype.other "")))
     keys lhs,
   keyFold Prod.snd
     (fun q => (matchKeys (q.1.get lhs) (q.2.get rhs) how).isSome)
     (fun q _ => (q.2.get rhs).astype
        ((matchKeys (q.1.get lhs) (q.2.get rhs) how).getD (Dtype.other "")))
     keys rhs)

/-- Transcription of `Merge._restore_categorical_keys`: for inner joins only, shallow-copy
the coerced frames and cast back to categorical every key pair that was
categorical on both original inputs (`lhs0`, `rhs0`); for any other join
kind the coerced frames pass through unchanged. -/
def restore_categorical_keys (how : String) (keys : List (Indexer × Indexer))
    (lhs0 rhs0 lhs rhs : Frame) : Frame × Frame :=
  if how = "inner" then
    (keyFold Prod.fst
       (fun q => (q.1.get lhs0).dtype = Dtype.cat ∧
                 (q.2.get rhs0).dtype = Dtype.cat)
       (fun q acc => (q.1.get acc).astype Dtype.cat) keys lhs,
     keyFold Prod.snd
       (fun q => (q.1.get lhs0).dtype = Dtype.cat ∧
                 (q.2.get rhs0).dtype = Dtype.cat)
       (fun q acc => (q.2.get acc).astype Dtype.cat) keys rhs)
  else (lhs, rhs)

/-- Modelled from the spec: columnar gather.  Each requested row position
contributes the cell at that position; a missing position (`none`, the
no-match sentinel) or an out-of-range position contributes a null
(`nullify=True`). -/
def Column.gather (c : Column) (rows : List (Option Nat)) : Column :=
  { c with values := rows.map fun r =>
      match r with
      | some i => c.values.getD i none
      | none => none }

/-- Modelled from the spec: `Frame._gather` gathers every data column (and
the index levels when `keep_index`) by the same row positions. -/
def Frame.gather (f : Frame) (rows : List (Option Nat)) (keepIndex : Bool) :
    Frame :=
  { f with
    data := f.data.map (fun q => (q.1, q.2.gather rows)),
    index := if keepIndex then
        f.index.map (fun ix => ix.map (fun q => (q.1, q.2.gather rows)))
      else none }

/-- The outer-join key fill of `Merge._merge_results`: when
`how == "outer"`, for each key pair with identical names, fill nulls of
the left result's key column from the right result's key column. -/
def outer_fill (how : String) (keys : List (Indexer × Indexer))
    (left_result right_result : Frame) : Frame :=
  if how = "outer" then
    keyFold Prod.fst (fun q => q.1.name = q.2.name)
      (fun q acc => (q.1.get acc).fillna (q.2.get right_result))
      keys left_result
  else left_result

/-- The `key_columns_with_same_name` list of `Merge._merge_results`: the `on` value
when truthy, else the names shared by positionally paired non-index
keys. -/
def key_columns_with_same_name (onP : Option PySeq)
    (keys : List (Indexer × Indexer)) : PySeq :=
  if pyTruthy onP then onP.getD (PySeq.list [])
  else PySeq.list (keys.filterMap fun q =>
    if q.1.index = false ∧ q.2.index = false ∧ q.1.name = q.2.name then
      some q.1.name
    else none)

/-- The left half of the renaming step of `Merge._merge_results`: each left
column name, paired with its output name (suffixed when it collides with a
right column and is not a same-named key). -/
def suffixed_left_names (lres rres : Frame) (keyNames : PySeq)
    (lsuffix : Option String) : List (ColName × ColName) :=
  lres.names.map fun n =>
    if n ∈ rres.names ∧ ¬(keyNames.contains n) then (n, n ++ pyStr lsuffix)
    else (n, n)

/-- The right half of the renaming step of `Merge._merge_results`:
same-named key columns are dropped, other colliding names are suffixed. -/
def suffixed_right_names (lres rres : Frame) (keyNames : PySeq)
    (rsuffix : Option String) : List (ColName × ColName) :=
  rres.names.filterMap fun n =>
    if n ∈ lres.names then
      (if keyNames.contains n then none else some (n, n ++ pyStr rsuffix))
    else some (n, n)

/-- The column-assembly step of `Merge._merge_results`: write left columns
under their output names in order, then right columns, into a fresh
accessor with dict assignment semantics. -/
def assemble_data (lres rres : Frame)
    (lmap rmap : List (ColName × ColName)) : List (ColName × Column) :=
  let d1 := lmap.foldl (fun acc q => alSet acc q.2 (lres.dataGet q.1)) []
  rmap.foldl (fun acc q => alSet acc q.2 (rres.dataGet q.1)) d1

/-- The index-assembly step of `Merge._merge_results`. -/
def result_index (p : MergeParams) (lres rres : Frame) :
    Option (List (ColName × Column)) :=
  if p.left_index ∧ p.right_index then
    (if p.how = "right" then rres.index else lres.index)
  else if p.left_index then rres.index
  else if p.right_index then lres.index
  else none

/-- Output-class selection of `Merge.__init__` (`self._out_class`). -/
def out_class (lhs rhs : Frame) : PyClass :=
  if lhs.cls.isMultiIndex ∨ rhs.cls.isMultiIndex then PyClass.multiIndex
  else if lhs.cls.isIndex then lhs.cls
  else PyClass.dataFrame

/-- Transcription of `Merge._merge_results`: outer-join key fill, renaming/deduplication of
colliding columns, column assembly, index assembly, and construction of
the output frame with the class chosen at `__init__`. -/
def merge_results (p : MergeParams) (keys : List (Indexer × Indexer))
    (oc : PyClass) (left_result right_result : Frame) : Frame :=
  let lres := outer_fill p.how keys left_result right_result
  let keyNames := key_columns_with_same_name p.on_ keys
  let lmap := suffixed_left_names lres right_result keyNames p.lsuffix
  let rmap := suffixed_right_names lres right_result keyNames p.rsuffix
  { data := assemble_data lres right_result lmap rmap,
    index := result_index p lres right_result,
    cls := oc }

/-- Transcription of `MergeSemi._merge_results`: delegate to `Merge._merge_results` with an
empty frame in place of the right result. -/
def merge_results_semi (p : MergeParams) (keys : List (Indexer × Indexer))
    (oc : PyClass) (left_result : Frame) (_right_result : Frame) : Frame :=
  merge_results p keys oc left_result Frame.empty

/-- Ascending order on nullable cells, nulls first (one fixed refinement
of the engine's ordering; the claims proved about sorting do not depend
on the null policy). -/
def optLe : Option Int → Option Int → Bool
  | none, _ => true
  | some _, none => false
  | some a, some b => decide (a ≤ b)

/-- Non-strict lexicographic order on rows of nullable cells. -/
def rowLe : List (Option Int) → List (Option Int) → Bool
  | [], _ => true
  | _ :: _, [] => false
  | a :: as, b :: bs => if a = b then rowLe as bs else optLe a b

/-- The row of cells that row position `i` takes in the given key
columns. -/
def row_key (cols : List Column) (i : Nat) : List (Option Int) :=
  cols.map fun c => c.values.getD i none

/-- Stable insertion of a row position into an already sorted list of row
positions: a new position goes after every position whose key is `≤` its
key. -/
def insertStable (key : Nat → List (Option Int)) (i : Nat) :
    List Nat → List Nat
  | [] => [i]
  | j :: rest =>
    if rowLe (key j) (key i) then j :: insertStable key i rest
    else i :: j :: rest

/-- Modelled from the spec: `sort_permutation` — the permutation of row
positions given by a stable ascending ordering over the key columns. -/
def stable_sort_perm (cols : List Column) (n : Nat) : List Nat :=
  (List.range n).foldl (fun acc i => insertStable (row_key cols) i acc) []

/-- Number of rows of a frame (the length of its first data column). -/
def Frame.num_rows (f : Frame) : Nat :=
  ((f.data.head?).map (fun q => q.2.values.length)).getD 0

/-- Modelled from the spec: `Frame._get_sorted_inds` — sort permutation
over the named columns, or over all of the frame's own columns when no
names are given. -/
def Frame.get_sorted_inds (f : Frame) (byCols : Option (List ColName)) :
    List Nat :=
  let cols := match byCols with
    | none => f.data.map Prod.snd
    | some ns => ns.map f.dataGet
  stable_sort_perm cols f.num_rows

/-- Modelled from the spec: `DataFrame._from_columns(by).argsort()` — sort
permutation over an explicit list of key columns. -/
def argsort_columns (cols : List Column) : List Nat :=
  stable_sort_perm cols (((cols.head?).map (fun c => c.values.length)).getD 0)

/-- The `by` key-column list of `Merge._sort_result`'s non-`on` branch:
index level columns (only when both index flags were used and an index
exists), then the `left_on` columns, then the `right_on` columns. -/
def sort_by_columns (p : MergeParams) (result : Frame) : List Column :=
  (if p.left_index ∧ p.right_index then
     (match result.index with
      | some ix => ix.map Prod.snd
      | none => [])
   else []) ++
  (if pyTruthy p.left_on then
     ((p.left_on.getD (PySeq.list [])).toList).map result.dataGet
   else []) ++
  (if pyTruthy p.right_on then
     ((p.right_on.getD (PySeq.list [])).toList).map result.dataGet
   else [])

/-- Transcription of `Merge._sort_result`: with truthy `on`, gather by the permutation of
a stable ordering (over the result's own columns when the result is an
Index, over the `on` columns otherwise), dropping the index; otherwise
sort by index levels (when both index flags), then `left_on`, then
`right_on` columns, skipping the gather when that key list is empty. -/
def sort_result (p : MergeParams) (result : Frame) : Frame :=
  if pyTruthy p.on_ then
    let sort_order :=
      if result.cls.isIndex then result.get_sorted_inds none
      else result.get_sorted_inds (some ((p.on_.getD (PySeq.list [])).toList))
    result.gather (sort_order.map some) false
  else if sort_by_columns p result ≠ [] then
    result.gather ((argsort_columns (sort_by_columns p result)).map some) true
  else result

/-- Transcription of `Merge.perform_merge` without the final sort stage: dtype matching,
native row selection (`_joiner` is an oracle), categorical restoration,
row gathering on both sides, and result assembly (`semi` selects
`MergeSemi._merge_results`). -/
def perform_merge_core
    (joiner : Frame → Frame → List Nat → List Nat → String →
      List (Option Nat) × List (Option Nat))
    (matchKeys : Column → Column → String → Option Dtype)
    (semi : Bool) (lhs rhs : Frame) (p : MergeParams)
    (keys : List (Indexer × Indexer)) : Frame :=
  let oc := out_class lhs rhs
  let coerced := match_key_dtypes matchKeys p.how keys lhs rhs
  let lidx := keys.map fun q => q.1.get_numeric_index coerced.1
  let ridx := keys.map fun q => q.2.get_numeric_index coerced.2
  let rows := joiner coerced.1 coerced.2 lidx ridx p.how
  let restored := restore_categorical_keys p.how keys lhs rhs coerced.1 coerced.2
  let left_result := restored.1.gather rows.1 true
  let right_result := restored.2.gather rows.2 true
  if semi then merge_results_semi p keys oc left_result right_result
  else merge_results p keys oc left_result right_result

/-- Transcription of `Merge.perform_merge`: the core pipeline followed by the optional sort
stage. -/
def perform_merge
    (joiner : Frame → Frame → List Nat → List Nat → String →
      List (Option Nat) × List (Option Nat))
    (matchKeys : Column → Column → String → Option Dtype)
    (semi : Bool) (lhs rhs : Frame) (p : MergeParams)
    (keys : List (Indexer × Indexer)) : Frame :=
  let result := perform_merge_core joiner matchKeys semi lhs rhs p keys
  if p.sort then sort_result p result else result

/-- The dispatch condition of `cudf.core.join.join.merge`: leftsemi and
leftanti merges are handled by `MergeSemi`. -/
def is_semi (p : MergeParams) : Bool :=
  p.how = "leftsemi" ∨ p.how = "leftanti"

/-- Transcription of `cudf.core.join.join.merge`: dispatch to `MergeSemi` for
leftsemi/leftanti and `Merge` otherwise, validate, resolve keys, and
perform the merge.  The two native row selectors (`libcudf.join.join` and
`libcudf.join.semi_join`) and the dtype policy are oracles. -/
def merge
    (joiner semiJoiner : Frame → Frame → List Nat → List Nat → String →
      List (Option Nat) × List (Option Nat))
    (matchKeys : Column → Column → String → Option Dtype)
    (lhs rhs : Frame) (p : MergeParams) : Except String Frame :=
  let semi : Bool := is_semi p
  match validate_merge_params lhs rhs p with
  | Except.error e => Except.error e
  | Except.ok _ =>
    match compute_join_keys lhs rhs p with
    | Except.error e => Except.error e
    | Except.ok ks =>
      Except.ok (perform_merge (if semi then semiJoiner else joiner) matchKeys
        semi lhs rhs p (ks.1.zip ks.2))

/-- Modelled from the spec: a heap of frame objects.  An address names one
frame object; the columns themselves are immutable values, so the mutable
state of a frame object is its name-to-column mapping (and index). -/
structure Heap where
  frames : List Frame
  deriving Repr

/-- Dereference an address (out-of-range reads give the empty frame; the
theorems require valid addresses). -/
def Heap.get (h : Heap) (a : Nat) : Frame :=
  h.frames.getD a Frame.empty

/-- Overwrite the object at an address in place. -/
def Heap.put (h : Heap) (a : Nat) (f : Frame) : Heap :=
  ⟨h.frames.set a f⟩

/-- Modelled from the spec: `Frame.copy(deep=False)` allocates a fresh
frame object whose mapping has the same entries (columns are shared but
immutable here); returns the extended heap and the fresh address. -/
def Heap.alloc (h : Heap) (f : Frame) : Heap × Nat :=
  (⟨h.frames ++ [f]⟩, h.frames.length)

/-- Transcription of `Merge._match_key_dtypes` against the heap model: shallow-copy both
operands to fresh addresses, then perform the loop of key-column rebinds
on the copies only (the loop's effect on the copy's own mapping is the
pure `match_key_dtypes`; reads come from the original operands). -/
def match_key_dtypes_heap (matchKeys : Column → Column → String → Option Dtype)
    (how : String) (keys : List (Indexer × Indexer)) (h : Heap)
    (la ra : Nat) : Heap × Nat × Nat :=
  let lhs := h.get la
  let rhs := h.get ra
  let a1 := h.alloc lhs
  let a2 := a1.1.alloc rhs
  let coerced := match_key_dtypes matchKeys how keys lhs rhs
  (((a2.1.put a1.2 coerced.1).put a2.2 coerced.2), a1.2, a2.2)

/-- Transcription of `Merge._restore_categorical_keys` against the heap model: shallow-copy
the coerced operands to fresh addresses and perform the inner-join cast
loop on the copies only; `la0`/`ra0` address the original operands whose
dtypes the condition reads. -/
def restore_categorical_keys_heap (how : String)
    (keys : List (Indexer × Indexer)) (h : Heap) (la0 ra0 la ra : Nat) :
    Heap × Nat × Nat :=
  let lhs := h.get la
  let rhs := h.get ra
  let a1 := h.alloc lhs
  let a2 := a1.1.alloc rhs
  let restored := restore_categorical_keys how keys (h.get la0) (h.get ra0)
    lhs rhs
  (((a2.1.put a1.2 restored.1).put a2.2 restored.2), a1.2, a2.2)

/-- The two normalization phases of `Merge.perform_merge` that touch key
columns, composed against the heap model: dtype matching on the original
operands, then categorical restoration on the coerced copies. -/
def normalize_keys_heap (matchKeys : Column → Column → String → Option Dtype)
    (how : String) (keys : List (Indexer × Indexer)) (h : Heap)
    (la ra : Nat) : Heap × Nat × Nat :=
  let m := match_key_dtypes_heap matchKeys how keys h la ra
  restore_categorical_keys_heap how keys m.1 la ra m.2.1 m.2.2

/-- The mutable slot a key descriptor addresses: its name together with
which mapping (index or data) it lives in. -/
def slotOf (k : Indexer) : ColName × Bool :=
  (k.name, k.index)

/-- Integer column helper for concrete examples. -/
def intCol (vs : List (Option Int)) : Column :=
  { dtype := Dtype.other "int64", values := vs }

/-- Default merge parameters for concrete examples. -/
def baseParams : MergeParams :=
  { on_ := none, left_on := none, right_on := none, left_index := false,
    right_index := false, how := "inner", sort := false, lsuffix := none,
    rsuffix := none, suffixes := none }

/-- Plain one-column frames for concrete examples. -/
def frA : Frame :=
  { data := [("a", intCol [some 1])], index := none,
    cls := PyClass.dataFrame }

def frB : Frame :=
  { data := [("b", intCol [some 2])],
    index := some [("i", intCol [some 7])], cls := PyClass.dataFrame }

/-- Whether an `Except` result is a success (helper for witnesses). -/
def isOkB : Except String Frame → Bool
  | Except.ok _ => true
  | Except.error _ => false

/-- The frame used as the right operand in the C6 counterexample: an
`Int64Index` (a non-MultiIndex `Index` subclass). -/
def frIdx : Frame :=
  { data := [("a", intCol [some 3])], index := none,
    cls := PyClass.genericIndex "Int64Index" }

/-- Frames sharing both a key name and a non-key name, for concrete
semi-join examples. -/
def frKXl : Frame :=
  { data := [("k", intCol [some 1, some 2]), ("x", intCol [some 3, some 4])],
    index := none, cls := PyClass.dataFrame }

def frKXr : Frame :=
  { data := [("k", intCol [some 2, some 5]), ("x", intCol [some 6, some 7])],
    index := none, cls := PyClass.dataFrame }

/-- leftsemi parameters with suffixes, so that validation passes. -/
def pSemiSuf : MergeParams :=
  { baseParams with
      how := "leftsemi", lsuffix := some "_l", rsuffix := some "_r" }

/-- Row selector stub used by concrete examples. -/
def joinerNil : Frame → Frame → List Nat → List Nat → String →
    List (Option Nat) × List (Option Nat) :=
  fun _ _ _ _ _ => ([], [])

/-- Dtype policy stub used by concrete examples (no coercion needed). -/
def matchNone : Column → Column → String → Option Dtype :=
  fun _ _ _ => none

/-- Left/right operands for the C10 counterexample: distinct key columns
`a`/`b` plus the shared non-key column `x`. -/
def frL10 : Frame :=
  { data := [("a", intCol [some 1]), ("x", intCol [some 5])],
    index := none, cls := PyClass.dataFrame }

def frR10 : Frame :=
  { data := [("b", intCol [some 2]), ("x", intCol [some 6])],
    index := none, cls := PyClass.dataFrame }

/-- leftsemi parameters keyed by `left_on`/`right_on`, with no suffixes. -/
def p10 : MergeParams :=
  { baseParams with
      how := "leftsemi", left_on := some (PySeq.list ["a"]),
      right_on := some (PySeq.list ["b"]) }

/-- leftsemi parameters with nothing specified (implicit shared keys). -/
def pSemiPlain : MergeParams :=
  { baseParams with how := "leftsemi" }

/-- Inner-join parameters with `on=["k"]` and `suffixes=("_l","_r")` but
no `lsuffix`/`rsuffix` (the combination `DataFrame.merge` would forward). -/
def pOnSuffixes : MergeParams :=
  { baseParams with
      on_ := some (PySeq.list ["k"]), suffixes := some ("_l", "_r") }

/-- Inner-join parameters with `on=["k"]` and no suffix information. -/
def pOnPlain : MergeParams :=
  { baseParams with on_ := some (PySeq.list ["k"]) }

/-- Outer-join parameters for the C2 witness. -/
def pOuter : MergeParams :=
  { baseParams with how := "outer" }

/-- Left/right gathered results for the C2 witness: the left key has a
null at position 1, the right key carries the value there. -/
def frO1 : Frame :=
  { data := [("k", intCol [some 1, none]),
             ("v", intCol [some 10, some 20])],
    index := none, cls := PyClass.dataFrame }

def frO2 : Frame :=
  { data := [("k", intCol [none, some 3])], index := none,
    cls := PyClass.dataFrame }

/-- The output names of the left columns after the renaming step, as a
function of the two sides' name lists. -/
def left_output_names (lnames rnames : List ColName) (kn : PySeq)
    (ls : Option String) : List ColName :=
  lnames.map fun n =>
    if n ∈ rnames ∧ ¬(kn.contains n) then n ++ pyStr ls else n

/-- The output names of the right columns after the renaming step
(same-named keys dropped), as a function of the two sides' name lists. -/
def right_output_names (lnames rnames : List ColName) (kn : PySeq)
    (rs : Option String) : List ColName :=
  rnames.filterMap fun n =>
    if n ∈ lnames then
      (if kn.contains n then none else some (n ++ pyStr rs))
    else some n

/-- Categorical column helper for concrete examples. -/
def catCol (vs : List (Option Int)) : Column :=
  { dtype := Dtype.cat, values := vs }

/-- Frames with a shared categorical key `k` for the C4 witness. -/
def frCl : Frame :=
  { data := [("k", catCol [some 0, some 1]),
             ("v", intCol [some 7, some 8])],
    index := none, cls := PyClass.dataFrame }

def frCr : Frame :=
  { data := [("k", catCol [some 1, some 2])], index := none,
    cls := PyClass.dataFrame }

/-- Inner-join parameters with suffixes so validation passes. -/
def pSuf : MergeParams :=
  { baseParams with lsuffix := some "_l", rsuffix := some "_r" }

/-- The sort stage exactly as claim C7 words it: with an explicit `on`
list the result is always gathered by the stable ordering over the named
`on` key columns; otherwise by index levels (when both index flags), then
`left_on`, then `right_on` columns, skipped when that list is empty. -/
def sort_result_claim (p : MergeParams) (result : Frame) : Frame :=
  if pyTruthy p.on_ then
    result.gather ((result.get_sorted_inds
      (some ((p.on_.getD (PySeq.list [])).toList))).map some) false
  else if sort_by_columns p result ≠ [] then
    result.gather ((argsort_columns (sort_by_columns p result)).map some)
      true
  else result

/-- Parameters and result frame for the C7 counterexample: `sort=True`,
`on=["a"]`, and a MultiIndex-classed result with a second column `b`. -/
def pC7 : MergeParams :=
  { baseParams with sort := true, on_ := some (PySeq.list ["a"]) }

def frMI : Frame :=
  { data := [("a", intCol [some 1, some 1]),
             ("b", intCol [some 2, some 1])],
    index := none, cls := PyClass.multiIndex }

theorem lookup_cons_self (n : ColName) (c : Column)
    (l : List (ColName × Column)) : ((n, c) :: l).lookup n = some c := by
  simp [List.lookup]

theorem lookup_cons_ne (m n : ColName) (c : Column)
    (l : List (ColName × Column)) (h : m ≠ n) :
    ((m, c) :: l).lookup n = l.lookup n := by
  have hb : (n == m) = false := beq_eq_false_iff_ne.mpr (Ne.symm h)
  simp [List.lookup, hb]

theorem lookup_replace_of_mem (l : List (ColName × Column)) (n : ColName)
    (c : Column) (h : n ∈ l.map Prod.fst) :
    (l.map (fun q => if q.1 = n then (n, c) else q)).lookup n = some c := by
  induction l with
  | nil => simp at h
  | cons hd tl ih =>
    by_cases hh : hd.1 = n
    · simp only [List.map_cons, if_pos hh]
      exact lookup_cons_self n c _
    · simp only [List.map_cons, List.mem_cons] at h
      rcases h with h1 | h1
    
      · exact absurd h1.symm hh
      · simp only [List.map_cons, if_neg hh]
        rw [show ((hd : ColName × Column)) = (hd.1, hd.2) from rfl,
          lookup_cons_ne hd.1 n hd.2 _ hh]
        exact ih h1

theorem lookup_replace_ne (l : List (ColName × Column)) (n : ColName)
    (c : Column) (m : ColName) (h : m ≠ n) :
    (l.map (fun q => if q.1 = n then (n, c) else q)).lookup m = l.lookup m := by
  induction l with
  | nil => rfl
  | cons hd tl ih =>
    by_cases hh : hd.1 = n
    · simp only [List.map_cons, if_pos hh]
      rw [lookup_cons_ne n m c _ (Ne.symm h),
        show ((hd : ColName × Column)) = (hd.1, hd.2) from rfl,
        lookup_cons_ne hd.1 m hd.2 _ (hh ▸ (Ne.symm h) : hd.1 ≠ m)]
      exact ih
    · simp only [List.map_cons, if_neg hh]
      by_cases hm : hd.1 = m
      · rw [show ((hd : ColName × Column)) = (hd.1, hd.2) from rfl, hm]
        rw [lookup_cons_self, lookup_cons_self]
      · rw [show ((hd : ColName × Column)) = (hd.1, hd.2) from rfl,
          lookup_cons_ne hd.1 m hd.2 _ hm, lookup_cons_ne hd.1 m hd.2 _ hm]
        exact ih

theorem lookup_append_self (l : List (ColName × Column)) (n : ColName)
    (c : Column) (h : n ∉ l.map Prod.fst) :
    (l ++ [(n, c)]).lookup n = some c := by
  induction l with
  | nil => exact lookup_cons_self n c []
  | cons hd tl ih =>
    simp only [List.map_cons, List.mem_cons, not_or] at h
    rw [List.cons_append, show ((hd : ColName × Column)) = (hd.1, hd.2) from rfl,
      lookup_cons_ne hd.1 n hd.2 _ (fun e => h.1 e.symm)]
    exact ih h.2

theorem lookup_append_ne (l : List (ColName × Column)) (n : ColName)
    (c : Column) (m : ColName) (h : m ≠ n) :
    (l ++ [(n, c)]).lookup m = l.lookup m := by
  induction l with
  | nil => simpa using lookup_cons_ne n m c [] (Ne.symm h)
  | cons hd tl ih =>
    by_cases hm : hd.1 = m
    · rw [List.cons_append, show ((hd : ColName × Column)) = (hd.1, hd.2) from rfl,
        hm, lookup_cons_self, lookup_cons_self]
    · rw [List.cons_append, show ((hd : ColName × Column)) = (hd.1, hd.2) from rfl,
        lookup_cons_ne hd.1 m hd.2 _ hm, lookup_cons_ne hd.1 m hd.2 _ hm]
      exact ih

theorem lookup_alSet_self (l : List (ColName × Column)) (n : ColName)
    (c : Column) : (alSet l n c).lookup n = some c := by
  unfold alSet
  by_cases h : n ∈ l.map Prod.fst
  · rw [if_pos h]; exact lookup_replace_of_mem l n c h
  · rw [if_neg h]; exact lookup_append_self l n c h

theorem lookup_alSet_ne (l : List (ColName × Column)) (n : ColName)
    (c : Column) (m : ColName) (h : m ≠ n) :
    (alSet l n c).lookup m = l.lookup m := by
  unfold alSet
  by_cases hm : n ∈ l.map Prod.fst
  · rw [if_pos hm]; exact lookup_replace_ne l n c m h
  · rw [if_neg hm]; exact lookup_append_ne l n c m h

theorem alSet_names_of_mem (l : List (ColName × Column)) (n : ColName)
    (c : Column) (h : n ∈ l.map Prod.fst) :
    (alSet l n c).map Prod.fst = l.map Prod.fst := by
  unfold alSet
  rw [if_pos h, List.map_map]
  apply List.map_congr_left
  intro q _
  by_cases hq : q.1 = n
  · simp [hq]
  · simp [hq]

theorem lookup_isSome_of_mem (l : List (ColName × Column)) (n : ColName)
    (h : n ∈ l.map Prod.fst) : (l.lookup n).isSome := by
  induction l with
  | nil => simp at h
  | cons hd tl ih =>
    by_cases hh : hd.1 = n
    · rw [show ((hd : ColName × Column)) = (hd.1, hd.2) from rfl, hh,
        lookup_cons_self]
      rfl
    · simp only [List.map_cons, List.mem_cons] at h
      rcases h with h1 | h1
      · exact absurd h1.symm hh
      · rw [show ((hd : ColName × Column)) = (hd.1, hd.2) from rfl,
          lookup_cons_ne hd.1 n hd.2 _ hh]
        exact ih h1

theorem Indexer.get_set_self (k : Indexer) (f : Frame) (c : Column)
    (h : k.index = true → f.index.isSome) : k.get (k.set f c) = c := by
  by_cases hk : k.index = true
  · obtain ⟨ix, hix⟩ := Option.isSome_iff_exists.mp (h hk)
    simp [Indexer.get, Indexer.set, hk, hix, lookup_alSet_self]
  · simp [Indexer.get, Indexer.set, hk, Frame.dataGet, lookup_alSet_self]

theorem Indexer.get_set_ne (k k' : Indexer) (f : Frame) (c : Column)
    (h : slotOf k' ≠ slotOf k) : k.get (k'.set f c) = k.get f := by
  by_cases hk : k.index = true <;> by_cases hk' : k'.index = true
  · have hn : k'.name ≠ k.name := fun e => h (by simp [slotOf, e, hk, hk'])
    cases hix : f.index with
    | none => simp [Indexer.get, Indexer.set, hk, hk', hix]
    | some ix =>
      simp [Indexer.get, Indexer.set, hk, hk', hix,
        lookup_alSet_ne ix k'.name c k.name (Ne.symm hn)]
  · simp [Indexer.get, Indexer.set, hk, hk']
  · simp [Indexer.get, Indexer.set, hk, hk', Frame.dataGet]
  · rw [Bool.not_eq_true] at hk hk'
    have hn : k'.name ≠ k.name := fun e => h (by simp [slotOf, e, hk, hk'])
    simp [Indexer.get, Indexer.set, hk, hk', Frame.dataGet,
      lookup_alSet_ne f.data k'.name c k.name (Ne.symm hn)]

theorem Indexer.set_index_isSome (k : Indexer) (f : Frame) (c : Column) :
    (k.set f c).index.isSome = f.index.isSome := by
  by_cases hk : k.index = true <;> simp [Indexer.set, hk]

theorem Indexer.set_cls (k : Indexer) (f : Frame) (c : Column) :
    (k.set f c).cls = f.cls := by
  by_cases hk : k.index = true <;> simp [Indexer.set, hk]

theorem Indexer.set_names (k : Indexer) (f : Frame) (c : Column)
    (h : k.index = true ∨ k.name ∈ f.names) : (k.set f c).names = f.names := by
  rcases h with h | h
  · simp [Indexer.set, h, Frame.names]
  · by_cases hk : k.index = true
    · simp [Indexer.set, hk, Frame.names]
    · simp [Indexer.set, hk, Frame.names, alSet_names_of_mem f.data k.name c h]

theorem keyFold_get_of_forall_ne (pick : Indexer × Indexer → Indexer)
    (cond : Indexer × Indexer → Bool)
    (val : Indexer × Indexer → Frame → Column)
    (keys : List (Indexer × Indexer)) (f : Frame) (k : Indexer)
    (h : ∀ q ∈ keys, cond q = true → slotOf (pick q) ≠ slotOf k) :
    k.get (keyFold pick cond val keys f) = k.get f := by
  induction keys generalizing f with
  | nil => rfl
  | cons q rest ih =>
    show k.get (keyFold pick cond val rest
      (if cond q then (pick q).set f (val q f) else f)) = k.get f
    rw [ih _ (fun r hr hc => h r (List.mem_cons_of_mem q hr) hc)]
    by_cases hc : cond q = true
    · rw [if_pos hc]
      exact Indexer.get_set_ne k (pick q) f (val q f)
        (h q (List.mem_cons_self q rest) hc)
    · rw [if_neg hc]

theorem keyFold_index_isSome (pick : Indexer × Indexer → Indexer)
    (cond : Indexer × Indexer → Bool)
    (val : Indexer × Indexer → Frame → Column)
    (keys : List (Indexer × Indexer)) (f : Frame) :
    (keyFold pick cond val keys f).index.isSome = f.index.isSome := by
  induction keys generalizing f with
  | nil => rfl
  | cons q rest ih =>
    show (keyFold pick cond val rest
      (if cond q then (pick q).set f (val q f) else f)).index.isSome = _
    rw [ih]
    by_cases hc : cond q = true
    · rw [if_pos hc, Indexer.set_index_isSome]
    · rw [if_neg hc]

theorem keyFold_cls (pick : Indexer × Indexer → Indexer)
    (cond : Indexer × Indexer → Bool)
    (val : Indexer × Indexer → Frame → Column)
    (keys : List (Indexer × Indexer)) (f : Frame) :
    (keyFold pick cond val keys f).cls = f.cls := by
  induction keys generalizing f with
  | nil => rfl
  | cons q rest ih =>
    show (keyFold pick cond val rest
      (if cond q then (pick q).set f (val q f) else f)).cls = _
    rw [ih]
    by_cases hc : cond q = true
    · rw [if_pos hc, Indexer.set_cls]
    · rw [if_neg hc]

theorem keyFold_names (pick : Indexer × Indexer → Indexer)
    (cond : Indexer × Indexer → Bool)
    (val : Indexer × Indexer → Frame → Column)
    (keys : List (Indexer × Indexer)) (f : Frame)
    (h : ∀ q ∈ keys, cond q = true →
      (pick q).index = true ∨ (pick q).name ∈ f.names) :
    (keyFold pick cond val keys f).names = f.names := by
  induction keys generalizing f with
  | nil => rfl
  | cons q rest ih =>
    show (keyFold pick cond val rest
      (if cond q then (pick q).set f (val q f) else f)).names = _
    by_cases hc : cond q = true
    · rw [if_pos hc]
      have hset : ((pick q).set f (val q f)).names = f.names :=
        Indexer.set_names (pick q) f (val q f)
          (h q (List.mem_cons_self q rest) hc)
      rw [ih ((pick q).set f (val q f))
        (fun r hr hcr => by
          rw [hset]
          exact h r (List.mem_cons_of_mem q hr) hcr), hset]
    · rw [if_neg hc]
      exact ih f (fun r hr hcr => h r (List.mem_cons_of_mem q hr) hcr)

theorem keyFold_get_write (pick : Indexer × Indexer → Indexer)
    (cond : Indexer × Indexer → Bool)
    (val : Indexer × Indexer → Frame → Column)
    (keys : List (Indexer × Indexer)) (f : Frame) (q0 : Indexer × Indexer)
    (hnd : (keys.map (fun q => slotOf (pick q))).Nodup)
    (hmem : q0 ∈ keys) (hc : cond q0 = true)
    (hsome : (pick q0).index = true → f.index.isSome = true)
    (hval : ∀ f1 f2, (pick q0).get f1 = (pick q0).get f2 →
      val q0 f1 = val q0 f2) :
    (pick q0).get (keyFold pick cond val keys f) = val q0 f := by
  induction keys generalizing f with
  | nil => exact absurd hmem (List.not_mem_nil q0)
  | cons q rest ih =>
    rw [List.map_cons, List.nodup_cons] at hnd
    rcases List.mem_cons.mp hmem with he | hm
    · subst he
      show (pick q0).get (keyFold pick cond val rest
        ((if cond q0 then (pick q0).set f (val q0 f) else f))) = val q0 f
      rw [if_pos hc]
      rw [keyFold_get_of_forall_ne pick cond val rest _ (pick q0)
        (fun r hr _ => fun e =>
          hnd.1 (e ▸ List.mem_map_of_mem (fun x => slotOf (pick x)) hr))]
      exact Indexer.get_set_self (pick q0) f (val q0 f) hsome
    · have hq0slot : slotOf (pick q) ≠ slotOf (pick q0) := by
        intro e
        exact hnd.1 (e ▸ List.mem_map_of_mem (fun x => slotOf (pick x)) hm)
      show (pick q0).get (keyFold pick cond val rest
        ((if cond q then (pick q).set f (val q f) else f))) = val q0 f
      by_cases hcq : cond q = true
      · rw [if_pos hcq]
        rw [ih ((pick q).set f (val q f)) hnd.2 hm
          (by rw [Indexer.set_index_isSome]; exact hsome)]
        exact hval _ _ (Indexer.get_set_ne (pick q0) (pick q) f (val q f)
          hq0slot)
      · rw [if_neg hcq]
        exact ih f hnd.2 hm hsome

theorem Column.gather_dtype (c : Column) (rows : List (Option Nat)) :
    (c.gather rows).dtype = c.dtype := rfl

theorem Frame.gather_names (f : Frame) (rows : List (Option Nat))
    (ki : Bool) : (f.gather rows ki).names = f.names := by
  simp [Frame.gather, Frame.names]

theorem Frame.gather_cls (f : Frame) (rows : List (Option Nat)) (ki : Bool) :
    (f.gather rows ki).cls = f.cls := rfl

theorem Frame.gather_lookup (f : Frame) (rows : List (Option Nat)) (ki : Bool)
    (n : ColName) : (f.gather rows ki).data.lookup n =
      (f.data.lookup n).map (fun c => c.gather rows) := by
  show (f.data.map (fun q => (q.1, q.2.gather rows))).lookup n = _
  induction f.data with
  | nil => rfl
  | cons hd tl ih =>
    by_cases hh : hd.1 = n
    · rw [List.map_cons,
        show ((hd : ColName × Column)) = (hd.1, hd.2) from rfl, hh]
      rw [lookup_cons_self, lookup_cons_self, Option.map_some']
    · rw [List.map_cons,
        show ((hd : ColName × Column)) = (hd.1, hd.2) from rfl,
        lookup_cons_ne hd.1 n (hd.2.gather rows) _ hh,
        lookup_cons_ne hd.1 n hd.2 _ hh]
      exact ih

theorem foldl_alSet_lookup_not_mem (src : ColName → Column)
    (pairs : List (ColName × ColName)) (acc : List (ColName × Column))
    (n : ColName) (h : n ∉ pairs.map Prod.snd) :
    (pairs.foldl (fun a q => alSet a q.2 (src q.1)) acc).lookup n =
      acc.lookup n := by
  induction pairs generalizing acc with
  | nil => rfl
  | cons q rest ih =>
    simp only [List.map_cons, List.mem_cons, not_or] at h
    rw [List.foldl_cons, ih _ h.2,
      lookup_alSet_ne acc q.2 (src q.1) n h.1]

theorem foldl_alSet_lookup_write (src : ColName → Column)
    (pairs : List (ColName × ColName)) (acc : List (ColName × Column))
    (o n : ColName) (hnd : (pairs.map Prod.snd).Nodup)
    (hmem : (o, n) ∈ pairs) :
    (pairs.foldl (fun a q => alSet a q.2 (src q.1)) acc).lookup n =
      some (src o) := by
  induction pairs generalizing acc with
  | nil => exact absurd hmem (List.not_mem_nil (o, n))
  | cons q rest ih =>
    rw [List.map_cons, List.nodup_cons] at hnd
    rcases List.mem_cons.mp hmem with he | hm
    · subst he
      rw [List.foldl_cons, foldl_alSet_lookup_not_mem src rest _ n hnd.1]
      exact lookup_alSet_self acc n (src o)
    · rw [List.foldl_cons]
      exact ih _ hnd.2 hm

theorem foldl_alSet_fresh (src : ColName → Column) (ns : List ColName)
    (acc : List (ColName × Column)) (hnd : ns.Nodup)
    (hfr : ∀ n ∈ ns, n ∉ acc.map Prod.fst) :
    ns.foldl (fun a n => alSet a n (src n)) acc =
      acc ++ ns.map (fun n => (n, src n)) := by
  induction ns generalizing acc with
  | nil => simp
  | cons n rest ih =>
    rw [List.nodup_cons] at hnd
    have hna : n ∉ acc.map Prod.fst := hfr n (List.mem_cons_self n rest)
    rw [List.foldl_cons, show alSet acc n (src n) = acc ++ [(n, src n)] from
      by rw [alSet, if_neg hna]]
    rw [ih (acc ++ [(n, src n)]) hnd.2 (fun m hm => by
      rw [List.map_append, List.mem_append, not_or]
      refine ⟨hfr m (List.mem_cons_of_mem n hm), ?_⟩
      simp only [List.map_cons, List.map_nil, List.mem_singleton]
      exact fun e => hnd.1 (e ▸ hm))]
    simp

theorem map_names_lookup (l : List (ColName × Column))
    (hnd : (l.map Prod.fst).Nodup) :
    (l.map Prod.fst).map
      (fun n => (n, (l.lookup n).getD Column.nullCol)) = l := by
  induction l with
  | nil => rfl
  | cons hd tl ih =>
    rw [List.map_cons, List.nodup_cons] at hnd
    rw [List.map_cons, List.map_cons,
      show ((hd : ColName × Column)) = (hd.1, hd.2) from rfl]
    rw [lookup_cons_self]
    congr 1
    rw [show ∀ (g h : ColName → ColName × Column), (∀ n ∈ tl.map Prod.fst,
        g n = h n) → (tl.map Prod.fst).map g = (tl.map Prod.fst).map h from
      fun g h hgh => List.map_congr_left hgh]
    · exact ih hnd.2
    · intro n hn
      rw [lookup_cons_ne hd.1 n hd.2 tl (fun e => hnd.1 (e ▸ hn))]

theorem Heap.get_put_ne (h : Heap) (a b : Nat) (f : Frame) (hne : a ≠ b) :
    (h.put b f).get a = h.get a := by
  simp [Heap.get, Heap.put, List.getD]
  rw [List.getElem?_set_ne (Ne.symm hne)]

theorem Heap.get_alloc_lt (h : Heap) (f : Frame) (a : Nat)
    (ha : a < h.frames.length) : (h.alloc f).1.get a = h.get a := by
  simp [Heap.get, Heap.alloc, List.getD]
  rw [List.getElem?_append, if_pos ha]

theorem validate_ok_how (lhs rhs : Frame) (p : MergeParams)
    (hv : validate_merge_params lhs rhs p = Except.ok ()) :
    p.how = "left" ∨ p.how = "inner" ∨ p.how = "outer" ∨
    p.how = "leftanti" ∨ p.how = "leftsemi" := by
  by_contra hadm
  rw [validate_merge_params, if_pos hadm] at hv
  exact Except.noConfusion hv

theorem validate_ok_how_ne_right (lhs rhs : Frame) (p : MergeParams)
    (hv : validate_merge_params lhs rhs p = Except.ok ()) :
    p.how ≠ "right" := by
  rcases validate_ok_how lhs rhs p hv with h | h | h | h | h <;>
    (rw [h]; intro e; exact absurd e (by decide))

theorem sort_result_cls (p : MergeParams) (f : Frame) :
    (sort_result p f).cls = f.cls := by
  unfold sort_result
  split
  · rfl
  · split
    · exact Frame.gather_cls f _ true
    · rfl

theorem sort_result_names (p : MergeParams) (f : Frame) :
    (sort_result p f).names = f.names := by
  unfold sort_result
  split
  · exact Frame.gather_names f _ false
  · split
    · exact Frame.gather_names f _ true
    · rfl

theorem merge_ok_shape (joiner semiJoiner : Frame → Frame → List Nat →
      List Nat → String → List (Option Nat) × List (Option Nat))
    (matchKeys : Column → Column → String → Option Dtype)
    (lhs rhs : Frame) (p : MergeParams) (res : Frame)
    (h : merge joiner semiJoiner matchKeys lhs rhs p = Except.ok res) :
    validate_merge_params lhs rhs p = Except.ok () ∧
    ∃ ks, compute_join_keys lhs rhs p = Except.ok ks ∧
      res = perform_merge
        (if is_semi p then semiJoiner else joiner)
        matchKeys (is_semi p) lhs rhs p (ks.1.zip ks.2) := by
  rw [merge] at h
  cases hv : validate_merge_params lhs rhs p with
  | error e => rw [hv] at h; exact Except.noConfusion h
  | ok u =>
    cases u
    rw [hv] at h
    cases hk : compute_join_keys lhs rhs p with
    | error e => rw [hk] at h; exact Except.noConfusion h
    | ok ks =>
      rw [hk] at h
      refine ⟨rfl, ks, rfl, ?_⟩
      exact (Except.ok.injEq _ _ ▸ h).symm

/-- C5: the output index of the assembler is the left result's index when
both `left_index` and `right_index` were requested (the `how == "right"`
alternative is never taken, since validation admits only
left/inner/outer/leftanti/leftsemi), the right result's index when only
`left_index` was requested, the left result's index when only
`right_index` was requested, and no index otherwise.  The left result at
assembly time is the outer-filled frame. -/
theorem C5_index_assembly (lhs rhs : Frame) (p : MergeParams)
    (keys : List (Indexer × Indexer)) (oc : PyClass) (lres rres : Frame)
    (hv : validate_merge_params lhs rhs p = Except.ok ()) :
    (merge_results p keys oc lres rres).index =
      (if p.left_index ∧ p.right_index then
         (outer_fill p.how keys lres rres).index
       else if p.left_index then rres.index
       else if p.right_index then (outer_fill p.how keys lres rres).index
       else none) := by
  have hr : p.how ≠ "right" := validate_ok_how_ne_right lhs rhs p hv
  show result_index p (outer_fill p.how keys lres rres) rres = _
  rw [result_index, if_neg hr]

/-- Witness for C5 at a concrete input. -/
theorem C5_index_assembly_witness :
    validate_merge_params frA frB { baseParams with left_index := true } =
      Except.ok () ∧
    (merge_results { baseParams with left_index := true } [] PyClass.dataFrame
      frA frB).index = some [("i", intCol [some 7])] := by
  refine ⟨by decide, ?_⟩
  rw [C5_index_assembly frA frB { baseParams with left_index := true } []
    PyClass.dataFrame frA frB (by decide)]
  decide

/-- C9: with none of `on`, `left_on`, `right_on`, `left_index`,
`right_index` supplied, the join keys are exactly the set intersection of
the two tables' column names, used as identical column keys on both
sides; and when that intersection is empty (and the earlier validation
checks pass) validation raises the no-common-columns error. -/
theorem C9_implicit_keys (lhs rhs : Frame) (p : MergeParams)
    (hon : p.on_ = none) (hlo : p.left_on = none) (hro : p.right_on = none)
    (hli : p.left_index = false) (hri : p.right_index = false) :
    (compute_join_keys lhs rhs p = Except.ok
        ((lhs.names.filter (fun n => n ∈ rhs.names)).map
           (fun n => Indexer.mk n false),
         (lhs.names.filter (fun n => n ∈ rhs.names)).map
           (fun n => Indexer.mk n false)) ∧
     ∀ n : ColName, n ∈ lhs.names.filter (fun n => n ∈ rhs.names) ↔
       n ∈ lhs.names ∧ n ∈ rhs.names) ∧
    ((p.how = "left" ∨ p.how = "inner" ∨ p.how = "outer" ∨
        p.how = "leftanti" ∨ p.how = "leftsemi") →
     ¬((lhs.cls.isSeries ∧ lhs.seriesName = "") ∨
       (rhs.cls.isSeries ∧ rhs.seriesName = "")) →
     lhs.names.filter (fun n => n ∈ rhs.names) = [] →
     validate_merge_params lhs rhs p =
       Except.error "No common columns to perform merge on") := by
  refine ⟨⟨?_, ?_⟩, ?_⟩
  · rw [compute_join_keys, hon, hlo, hro, hli, hri]
    simp [pyTruthy]
  · intro n
    simp [List.mem_filter]
  · intro hadm hnm hempty
    rw [validate_merge_params, if_neg (not_not_intro hadm),
      if_neg (by rw [hon]; simp [pyTruthy]), if_neg hnm]
    rw [if_pos]
    refine ⟨?_, ?_, ?_⟩
    · rw [hli, hri]; simp
    · rw [hlo, hro]; simp [pyTruthy]
    · rw [hempty]; rfl

/-- Witness for C9 at a concrete input (left column `a`, right column
`b`, empty intersection). -/
theorem C9_implicit_keys_witness :
    compute_join_keys frA frB baseParams = Except.ok ([], []) ∧
    validate_merge_params frA frB baseParams =
      Except.error "No common columns to perform merge on" := by
  have h := C9_implicit_keys frA frB baseParams rfl rfl rfl rfl rfl
  refine ⟨?_, h.2 (by decide) (by decide) (by decide)⟩
  have h1 := h.1.1
  simpa using h1

theorem perform_merge_core_cls
    (joiner : Frame → Frame → List Nat → List Nat → String →
      List (Option Nat) × List (Option Nat))
    (matchKeys : Column → Column → String → Option Dtype)
    (semi : Bool) (lhs rhs : Frame) (p : MergeParams)
    (keys : List (Indexer × Indexer)) :
    (perform_merge_core joiner matchKeys semi lhs rhs p keys).cls =
      out_class lhs rhs := by
  cases semi <;> rfl

theorem perform_merge_cls
    (joiner : Frame → Frame → List Nat → List Nat → String →
      List (Option Nat) × List (Option Nat))
    (matchKeys : Column → Column → String → Option Dtype)
    (semi : Bool) (lhs rhs : Frame) (p : MergeParams)
    (keys : List (Indexer × Indexer)) :
    (perform_merge joiner matchKeys semi lhs rhs p keys).cls =
      out_class lhs rhs := by
  unfold perform_merge
  cases hs : p.sort
  · show (perform_merge_core joiner matchKeys semi lhs rhs p keys).cls = _
    exact perform_merge_core_cls joiner matchKeys semi lhs rhs p keys
  · show (sort_result p
      (perform_merge_core joiner matchKeys semi lhs rhs p keys)).cls = _
    rw [sort_result_cls]
    exact perform_merge_core_cls joiner matchKeys semi lhs rhs p keys

/-- C6 counterexample: with a DataFrame left operand and an `Int64Index`
right operand, the chosen output class is the generic DataFrame class and
not the class of the Index-typed (right) input, contradicting the
claim's "either side". -/
theorem C6_counterexample :
    frIdx.cls.isIndex = true ∧ frIdx.cls.isMultiIndex = false ∧
    frA.cls.isMultiIndex = false ∧ frA.cls.isIndex = false ∧
    out_class frA frIdx = PyClass.dataFrame ∧
    out_class frA frIdx ≠ frIdx.cls := by
  decide

/-- C6 amended: the class of every merge result is MultiIndex when either
input is a MultiIndex; otherwise the class of the left input when the
left input is an Index (an Index-typed right input alone has no effect);
otherwise the generic DataFrame class. -/
theorem C6_result_class_amended
    (joiner semiJoiner : Frame → Frame → List Nat → List Nat → String →
      List (Option Nat) × List (Option Nat))
    (matchKeys : Column → Column → String → Option Dtype)
    (lhs rhs : Frame) (p : MergeParams) (res : Frame)
    (h : merge joiner semiJoiner matchKeys lhs rhs p = Except.ok res) :
    res.cls =
      (if lhs.cls.isMultiIndex ∨ rhs.cls.isMultiIndex then
         PyClass.multiIndex
       else if lhs.cls.isIndex then lhs.cls
       else PyClass.dataFrame) := by
  obtain ⟨hv, ks, hk, hres⟩ :=
    merge_ok_shape joiner semiJoiner matchKeys lhs rhs p res h
  rw [hres, perform_merge_cls]
  rfl

/-- Witness for C6's amended theorem at a concrete input. -/
theorem C6_result_class_amended_witness :
    (merge (fun _ _ _ _ _ => ([], [])) (fun _ _ _ _ _ => ([], []))
      (fun _ _ _ => none) frA frIdx
      { baseParams with lsuffix := some "_l", rsuffix := some "_r" }).map
      Frame.cls = Except.ok PyClass.dataFrame := by
  have hok : isOkB (merge (fun _ _ _ _ _ => ([], []))
      (fun _ _ _ _ _ => ([], [])) (fun _ _ _ => none) frA frIdx
      { baseParams with lsuffix := some "_l", rsuffix := some "_r" }) =
      true := by decide
  cases hm : merge (fun _ _ _ _ _ => ([], [])) (fun _ _ _ _ _ => ([], []))
      (fun _ _ _ => none) frA frIdx
      { baseParams with lsuffix := some "_l", rsuffix := some "_r" } with
  | error e => rw [hm] at hok; exact Bool.noConfusion hok
  | ok res =>
    have hc := C6_result_class_amended (fun _ _ _ _ _ => ([], []))
      (fun _ _ _ _ _ => ([], [])) (fun _ _ _ => none) frA frIdx
      { baseParams with lsuffix := some "_l", rsuffix := some "_r" } res hm
    simp only [Except.map]
    rw [hc]
    decide

theorem merge_results_semi_data (p : MergeParams)
    (keys : List (Indexer × Indexer)) (oc : PyClass) (lres rres : Frame)
    (houter : p.how ≠ "outer") (hnd : lres.names.Nodup) :
    (merge_results_semi p keys oc lres rres).data = lres.data := by
  show assemble_data (outer_fill p.how keys lres Frame.empty) Frame.empty
      (suffixed_left_names (outer_fill p.how keys lres Frame.empty)
        Frame.empty (key_columns_with_same_name p.on_ keys) p.lsuffix)
      (suffixed_right_names (outer_fill p.how keys lres Frame.empty)
        Frame.empty (key_columns_with_same_name p.on_ keys) p.rsuffix) =
      lres.data
  rw [show outer_fill p.how keys lres Frame.empty = lres from by
    rw [outer_fill, if_neg houter]]
  rw [show suffixed_right_names lres Frame.empty
      (key_columns_with_same_name p.on_ keys) p.rsuffix = [] from rfl]
  rw [show suffixed_left_names lres Frame.empty
      (key_columns_with_same_name p.on_ keys) p.lsuffix =
      lres.names.map (fun n => (n, n)) from by
    unfold suffixed_left_names
    apply List.map_congr_left
    intro n _
    rw [if_neg]
    intro hcontr
    exact absurd hcontr.1 (by simp [Frame.empty, Frame.names])]
  show (lres.names.map (fun n => (n, n))).foldl
      (fun acc q => alSet acc q.2 (lres.dataGet q.1)) [] = lres.data
  rw [List.foldl_map]
  rw [foldl_alSet_fresh (fun n => lres.dataGet n) lres.names [] hnd
    (by intro n _; simp)]
  simpa [Frame.names, Frame.dataGet] using map_names_lookup lres.data hnd

theorem merge_results_semi_names (p : MergeParams)
    (keys : List (Indexer × Indexer)) (oc : PyClass) (lres rres : Frame)
    (houter : p.how ≠ "outer") (hnd : lres.names.Nodup) :
    (merge_results_semi p keys oc lres rres).names = lres.names := by
  show (merge_results_semi p keys oc lres rres).data.map Prod.fst =
    lres.data.map Prod.fst
  rw [merge_results_semi_data p keys oc lres rres houter hnd]

theorem match_key_dtypes_names_left
    (matchKeys : Column → Column → String → Option Dtype) (how : String)
    (keys : List (Indexer × Indexer)) (lhs rhs : Frame)
    (h : ∀ q ∈ keys, q.1.index = true ∨ q.1.name ∈ lhs.names) :
    (match_key_dtypes matchKeys how keys lhs rhs).1.names = lhs.names :=
  keyFold_names _ _ _ keys lhs (fun q hq _ => h q hq)

theorem restore_categorical_keys_names_left (how : String)
    (keys : List (Indexer × Indexer)) (lhs0 rhs0 lhs rhs : Frame)
    (h : ∀ q ∈ keys, q.1.index = true ∨ q.1.name ∈ lhs.names) :
    (restore_categorical_keys how keys lhs0 rhs0 lhs rhs).1.names =
      lhs.names := by
  unfold restore_categorical_keys
  by_cases hi : how = "inner"
  · rw [if_pos hi]
    exact keyFold_names _ _ _ keys lhs (fun q hq _ => h q hq)
  · rw [if_neg hi]

theorem merge_results_semi_names_eq (p : MergeParams)
    (keys : List (Indexer × Indexer)) (oc : PyClass) (lres rres : Frame)
    (t : List ColName) (houter : p.how ≠ "outer")
    (hnd : lres.names.Nodup) (ht : lres.names = t) :
    (merge_results_semi p keys oc lres rres).names = t := by
  rw [merge_results_semi_names p keys oc lres rres houter hnd]
  exact ht

theorem perform_merge_core_semi_names
    (joiner : Frame → Frame → List Nat → List Nat → String →
      List (Option Nat) × List (Option Nat))
    (matchKeys : Column → Column → String → Option Dtype)
    (lhs rhs : Frame) (p : MergeParams) (keys : List (Indexer × Indexer))
    (houter : p.how ≠ "outer") (hnd : lhs.names.Nodup)
    (hkeys : ∀ q ∈ keys, q.1.index = true ∨ q.1.name ∈ lhs.names) :
    (perform_merge_core joiner matchKeys true lhs rhs p keys).names =
      lhs.names := by
  have hmatch : (match_key_dtypes matchKeys p.how keys lhs rhs).1.names =
      lhs.names := match_key_dtypes_names_left matchKeys p.how keys lhs rhs
    hkeys
  have hrest : (restore_categorical_keys p.how keys lhs rhs
      (match_key_dtypes matchKeys p.how keys lhs rhs).1
      (match_key_dtypes matchKeys p.how keys lhs rhs).2).1.names =
      lhs.names := by
    rw [restore_categorical_keys_names_left p.how keys lhs rhs _ _
      (fun q hq => by rw [hmatch]; exact hkeys q hq)]
    exact hmatch
  unfold perform_merge_core
  dsimp only
  rw [if_pos rfl]
  exact merge_results_semi_names_eq p keys _ _ _ _ houter
    (by rw [Frame.gather_names, hrest]; exact hnd)
    (by rw [Frame.gather_names]; exact hrest)

theorem perform_merge_semi_names
    (joiner : Frame → Frame → List Nat → List Nat → String →
      List (Option Nat) × List (Option Nat))
    (matchKeys : Column → Column → String → Option Dtype)
    (lhs rhs : Frame) (p : MergeParams) (keys : List (Indexer × Indexer))
    (houter : p.how ≠ "outer") (hnd : lhs.names.Nodup)
    (hkeys : ∀ q ∈ keys, q.1.index = true ∨ q.1.name ∈ lhs.names) :
    (perform_merge joiner matchKeys true lhs rhs p keys).names =
      lhs.names := by
  unfold perform_merge
  cases hs : p.sort
  · show (perform_merge_core joiner matchKeys true lhs rhs p keys).names = _
    exact perform_merge_core_semi_names joiner matchKeys lhs rhs p keys
      houter hnd hkeys
  · show (sort_result p
      (perform_merge_core joiner matchKeys true lhs rhs p keys)).names = _
    rw [sort_result_names]
    exact perform_merge_core_semi_names joiner matchKeys lhs rhs p keys
      houter hnd hkeys

/-- C3: for every leftsemi or leftanti merge the output table carries
exactly the left operand's column names, in order: every right-side
column is dropped from the result regardless of its name. -/
theorem C3_semi_left_columns_only
    (joiner semiJoiner : Frame → Frame → List Nat → List Nat → String →
      List (Option Nat) × List (Option Nat))
    (matchKeys : Column → Column → String → Option Dtype)
    (lhs rhs : Frame) (p : MergeParams) (res : Frame)
    (hsemi : p.how = "leftsemi" ∨ p.how = "leftanti")
    (hnd : lhs.names.Nodup)
    (hkeys : ∀ ks, compute_join_keys lhs rhs p = Except.ok ks →
      ∀ q ∈ ks.1.zip ks.2, q.1.index = true ∨ q.1.name ∈ lhs.names)
    (h : merge joiner semiJoiner matchKeys lhs rhs p = Except.ok res) :
    res.names = lhs.names := by
  obtain ⟨hv, ks, hk, hres⟩ :=
    merge_ok_shape joiner semiJoiner matchKeys lhs rhs p res h
  have hsemiB : is_semi p = true := by
    rcases hsemi with h1 | h1 <;> simp [is_semi, h1]
  have houter : p.how ≠ "outer" := by
    rcases hsemi with h1 | h1 <;> (rw [h1]; decide)
  rw [hres, hsemiB, if_pos rfl]
  exact perform_merge_semi_names semiJoiner matchKeys lhs rhs p
    (ks.1.zip ks.2) houter hnd (hkeys ks hk)

/-- Witness for C3 at a concrete input (leftsemi, suffixes supplied so
validation passes). -/
theorem C3_semi_left_columns_only_witness :
    (merge joinerNil joinerNil matchNone frKXl frKXr pSemiSuf).map
      Frame.names = Except.ok ["k", "x"] := by
  have hok : isOkB (merge joinerNil joinerNil matchNone frKXl frKXr
      pSemiSuf) = true := by decide
  cases hm : merge joinerNil joinerNil matchNone frKXl frKXr pSemiSuf with
  | error e => rw [hm] at hok; exact Bool.noConfusion hok
  | ok res =>
    have hn := C3_semi_left_columns_only joinerNil joinerNil matchNone
      frKXl frKXr pSemiSuf res (Or.inl rfl) (by decide)
      (fun ks hks q hq => by
        rw [show compute_join_keys frKXl frKXr pSemiSuf =
            Except.ok ([Indexer.mk "k" false, Indexer.mk "x" false],
              [Indexer.mk "k" false, Indexer.mk "x" false]) from by
          decide] at hks
        have hks2 : ks = ([Indexer.mk "k" false, Indexer.mk "x" false],
            [Indexer.mk "k" false, Indexer.mk "x" false]) :=
          (Except.ok.injEq _ _ ▸ hks).symm
        subst hks2
        fin_cases hq <;> simp [frKXl, Frame.names, intCol])
      hm
    simp only [Except.map]
    rw [hn]
    rfl

/-- C10 counterexample: a leftsemi merge whose inputs share the non-key
column `x`, with no suffixes supplied, nevertheless passes validation
without raising (when both `left_on` and `right_on` are truthy the
overlap loop never raises). -/
theorem C10_counterexample :
    ("x" ∈ frL10.names ∧ "x" ∈ frR10.names ∧
     p10.lsuffix = none ∧ p10.rsuffix = none ∧ p10.suffixes = none ∧
     p10.how = "leftsemi" ∧
     PySeq.contains (PySeq.list ["a"]) "x" = false ∧
     PySeq.contains (PySeq.list ["b"]) "x" = false) ∧
    validate_merge_params frL10 frR10 p10 = Except.ok () := by
  decide

theorem overlap_check_error (p : MergeParams) (names : List ColName)
    (hnotboth : ¬(pyTruthy p.left_on = true ∧ pyTruthy p.right_on = true))
    (n : ColName) (hmem : n ∈ names)
    (hnk : ¬(p.left_on = some (PySeq.str n) ∧
             p.right_on = some (PySeq.str n))) :
    overlap_check p "" "" names = Except.error
      "there are overlapping columns but lsuffix and rsuffix are not defined"
    := by
  induction names with
  | nil => exact absurd hmem (List.not_mem_nil n)
  | cons m rest ih =>
    rw [overlap_check]
    by_cases h1 : p.left_on = some (PySeq.str m) ∧
        p.right_on = some (PySeq.str m)
    · rw [if_pos h1]
      have hne : n ≠ m := by
        intro e; exact hnk (e ▸ h1)
      exact ih (List.mem_of_ne_of_mem hne hmem)
    · rw [if_neg h1, if_neg hnotboth, if_pos (by simp)]

/-- C10 amended: for every leftsemi or leftanti merge whose inputs share
a column name that is not an identically-named single key, with no
lsuffix, rsuffix or suffixes supplied, validation raises the
overlapping-columns error — unless both `left_on` and `right_on` are
truthy, in which case the overlap loop never raises for any name.  The
error is raised even though `MergeSemi`'s assembler would drop every
right-side column: the semi result carries exactly the left result's
column names. -/
theorem C10_semi_overlap_error_amended (lhs rhs : Frame) (p : MergeParams)
    (hsemi : p.how = "leftsemi" ∨ p.how = "leftanti")
    (hnotboth : ¬(pyTruthy p.left_on = true ∧ pyTruthy p.right_on = true))
    (hnoton : ¬(pyTruthy p.on_ ∧
      (pyTruthy p.left_on ∨ pyTruthy p.right_on)))
    (hnm : ¬((lhs.cls.isSeries ∧ lhs.seriesName = "") ∨
             (rhs.cls.isSeries ∧ rhs.seriesName = "")))
    (hls : p.lsuffix.getD "" = "") (hrs : p.rsuffix.getD "" = "")
    (hsux : p.suffixes = none)
    (n : ColName) (hnl : n ∈ lhs.names) (hnr : n ∈ rhs.names)
    (hnk : ¬(p.left_on = some (PySeq.str n) ∧
             p.right_on = some (PySeq.str n))) :
    validate_merge_params lhs rhs p = Except.error
      "there are overlapping columns but lsuffix and rsuffix are not defined"
    ∧ ∀ (keys : List (Indexer × Indexer)) (oc : PyClass) (lres rres : Frame),
        lres.names.Nodup →
        (merge_results_semi p keys oc lres rres).names = lres.names := by
  constructor
  · have hadm : p.how = "left" ∨ p.how = "inner" ∨ p.how = "outer" ∨
        p.how = "leftanti" ∨ p.how = "leftsemi" := by
      rcases hsemi with h1 | h1
      · exact Or.inr (Or.inr (Or.inr (Or.inr h1)))
      · exact Or.inr (Or.inr (Or.inr (Or.inl h1)))
    have hcommon : n ∈ lhs.names.filter (fun m => m ∈ rhs.names) :=
      List.mem_filter.mpr ⟨hnl, by simpa using hnr⟩
    have hlen : ¬(¬(p.left_index = true ∨ p.right_index = true) ∧
        ¬(pyTruthy p.left_on = true ∨ pyTruthy p.right_on = true) ∧
        (lhs.names.filter (fun m => m ∈ rhs.names)).length = 0) := by
      intro hcontr
      exact List.not_mem_nil n
        (List.length_eq_zero.mp hcontr.2.2 ▸ hcommon)
    rw [validate_merge_params, if_neg (not_not_intro hadm), if_neg hnoton,
      if_neg hnm, if_neg hlen]
    rw [show (if p.suffixes.isSome then (p.suffixes.getD ("", "")).1
        else p.lsuffix.getD "") = "" from by rw [hsux]; exact hls]
    rw [show (if p.suffixes.isSome then (p.suffixes.getD ("", "")).2
        else p.rsuffix.getD "") = "" from by rw [hsux]; exact hrs]
    exact overlap_check_error p _ hnotboth n hcommon hnk
  · intro keys oc lres rres hnd
    have houter : p.how ≠ "outer" := by
      rcases hsemi with h1 | h1 <;> (rw [h1]; decide)
    exact merge_results_semi_names p keys oc lres rres houter hnd

/-- Witness for C10's amended theorem at a concrete input: implicit-key
leftsemi merge of two frames sharing `k` and `x`, no suffixes. -/
theorem C10_semi_overlap_error_amended_witness :
    validate_merge_params frKXl frKXr pSemiPlain = Except.error
      "there are overlapping columns but lsuffix and rsuffix are not defined"
    ∧ (merge_results_semi pSemiPlain [] PyClass.dataFrame frKXl frKXr).names
      = frKXl.names := by
  have h := C10_semi_overlap_error_amended frKXl frKXr pSemiPlain
    (Or.inl rfl) (by decide) (by decide) (by decide) (by decide) (by decide)
    rfl "k" (by decide) (by decide) (by decide)
  exact ⟨h.1, h.2 [] PyClass.dataFrame frKXl frKXr (by decide)⟩

theorem Heap.put_length (h : Heap) (a : Nat) (f : Frame) :
    (h.put a f).frames.length = h.frames.length := by
  simp [Heap.put]

theorem Heap.alloc_length (h : Heap) (f : Frame) :
    ((h.alloc f).1).frames.length = h.frames.length + 1 := by
  simp [Heap.alloc]

theorem Heap.alloc_addr (h : Heap) (f : Frame) :
    (h.alloc f).2 = h.frames.length := rfl

theorem match_key_dtypes_heap_spec
    (matchKeys : Column → Column → String → Option Dtype) (how : String)
    (keys : List (Indexer × Indexer)) (h : Heap) (la ra a : Nat)
    (ha : a < h.frames.length) :
    (match_key_dtypes_heap matchKeys how keys h la ra).1.get a = h.get a ∧
    (match_key_dtypes_heap matchKeys how keys h la ra).1.frames.length =
      h.frames.length + 2 ∧
    (match_key_dtypes_heap matchKeys how keys h la ra).2.1 =
      h.frames.length ∧
    (match_key_dtypes_heap matchKeys how keys h la ra).2.2 =
      h.frames.length + 1 := by
  unfold match_key_dtypes_heap
  dsimp only
  refine ⟨?_, ?_, ?_, ?_⟩
  · rw [Heap.get_put_ne _ _ _ _
        (by rw [Heap.alloc_addr, Heap.alloc_length]; omega),
      Heap.get_put_ne _ _ _ _ (by rw [Heap.alloc_addr]; omega),
      Heap.get_alloc_lt _ _ _ (by rw [Heap.alloc_length]; omega),
      Heap.get_alloc_lt _ _ _ ha]
  · rw [Heap.put_length, Heap.put_length, Heap.alloc_length,
      Heap.alloc_length]
  · rfl
  · rw [show (((h.alloc (h.get la)).1).alloc (h.get ra)).2 =
      ((h.alloc (h.get la)).1).frames.length from rfl, Heap.alloc_length]

theorem restore_categorical_keys_heap_spec (how : String)
    (keys : List (Indexer × Indexer)) (h : Heap) (la0 ra0 la ra a : Nat)
    (ha : a < h.frames.length) :
    (restore_categorical_keys_heap how keys h la0 ra0 la ra).1.get a =
      h.get a ∧
    (restore_categorical_keys_heap how keys h la0 ra0 la ra).2.1 =
      h.frames.length ∧
    (restore_categorical_keys_heap how keys h la0 ra0 la ra).2.2 =
      h.frames.length + 1 := by
  unfold restore_categorical_keys_heap
  dsimp only
  refine ⟨?_, ?_, ?_⟩
  · rw [Heap.get_put_ne _ _ _ _
        (by rw [Heap.alloc_addr, Heap.alloc_length]; omega),
      Heap.get_put_ne _ _ _ _ (by rw [Heap.alloc_addr]; omega),
      Heap.get_alloc_lt _ _ _ (by rw [Heap.alloc_length]; omega),
      Heap.get_alloc_lt _ _ _ ha]
  · rfl
  · rw [show (((h.alloc (h.get la)).1).alloc (h.get ra)).2 =
      ((h.alloc (h.get la)).1).frames.length from rfl, Heap.alloc_length]

/-- C8: across `_match_key_dtypes` followed by
`_restore_categorical_keys`, modelled against the heap, the original
operand objects are never mutated: dtype coercion and categorical
restoration rebind key columns only on freshly allocated shallow copies,
so the heap objects at the operands' addresses are unchanged (and the
returned addresses are distinct from them). -/
theorem C8_inputs_never_mutated
    (matchKeys : Column → Column → String → Option Dtype) (how : String)
    (keys : List (Indexer × Indexer)) (h : Heap) (la ra : Nat)
    (hla : la < h.frames.length) (hra : ra < h.frames.length) :
    (normalize_keys_heap matchKeys how keys h la ra).1.get la = h.get la ∧
    (normalize_keys_heap matchKeys how keys h la ra).1.get ra = h.get ra ∧
    (normalize_keys_heap matchKeys how keys h la ra).2.1 ≠ la ∧
    (normalize_keys_heap matchKeys how keys h la ra).2.2 ≠ ra := by
  have hm := fun a ha => match_key_dtypes_heap_spec matchKeys how keys h
    la ra a ha
  have hmla := hm la hla
  have hmra := hm ra hra
  unfold normalize_keys_heap
  dsimp only
  have hr := fun a ha => restore_categorical_keys_heap_spec how keys
    (match_key_dtypes_heap matchKeys how keys h la ra).1 la ra
    (match_key_dtypes_heap matchKeys how keys h la ra).2.1
    (match_key_dtypes_heap matchKeys how keys h la ra).2.2 a ha
  have hlen := hmla.2.1
  have hrla := hr la (by rw [hlen]; omega)
  have hrra := hr ra (by rw [hlen]; omega)
  refine ⟨?_, ?_, ?_, ?_⟩
  · rw [hrla.1, hmla.1]
  · rw [hrra.1, hmra.1]
  · rw [hrla.2.1, hlen]; omega
  · rw [hrra.2.2, hlen]; omega

/-- Witness for C8 at a concrete heap. -/
theorem C8_inputs_never_mutated_witness :
    (normalize_keys_heap matchNone "inner"
      [(Indexer.mk "k" false, Indexer.mk "k" false)]
      ⟨[frKXl, frKXr]⟩ 0 1).1.get 0 = frKXl ∧
    (normalize_keys_heap matchNone "inner"
      [(Indexer.mk "k" false, Indexer.mk "k" false)]
      ⟨[frKXl, frKXr]⟩ 0 1).1.get 1 = frKXr := by
  have h := C8_inputs_never_mutated matchNone "inner"
    [(Indexer.mk "k" false, Indexer.mk "k" false)]
    ⟨[frKXl, frKXr]⟩ 0 1 (by decide) (by decide)
  exact ⟨h.1, h.2.1⟩

/-- C1 evaluated at the failing input: with `suffixes=("_l","_r")` but
`lsuffix`/`rsuffix` unset, validation passes (it unpacks `suffixes` into
its local suffixes), yet `_merge_results` renames the colliding non-key
column `x` with `f"{name}{self.lsuffix}"` where `self.lsuffix` is still
None — both copies become `xNone` (the right overwriting the left)
instead of `x_l`/`x_r`.  Without any suffix information, validation
raises the overlapping-columns error as the claim states. -/
theorem C1_suffixes_never_reach_rename :
    validate_merge_params frKXl frKXr pOnSuffixes = Except.ok () ∧
    (merge joinerNil joinerNil matchNone frKXl frKXr pOnSuffixes).map
      Frame.names = Except.ok ["k", "xNone"] ∧
    validate_merge_params frKXl frKXr pOnPlain = Except.error
      "there are overlapping columns but lsuffix and rsuffix are not defined"
    := by
  refine ⟨by decide, by decide, by decide⟩

theorem Column.fillna_getD (c o : Column) (i : Nat)
    (hi : i < c.values.length) :
    (c.fillna o).values.getD i none =
      (match c.values.getD i none with
       | some v => some v
       | none => o.values.getD i none) := by
  show ((List.range c.values.length).map fun j =>
    (match c.values.getD j none with
     | some v => some v
     | none => o.values.getD j none)).getD i none = _
  rw [List.getD_eq_getElem?_getD, List.getElem?_map,
    List.getElem?_range hi]
  rfl

theorem merge_results_lookup_key (p : MergeParams)
    (keys : List (Indexer × Indexer)) (oc : PyClass) (lres rres : Frame)
    (lk : Indexer)
    (hkn : (key_columns_with_same_name p.on_ keys).contains lk.name = true)
    (hl : lk.name ∈ (outer_fill p.how keys lres rres).names)
    (hndl : ((suffixed_left_names (outer_fill p.how keys lres rres) rres
      (key_columns_with_same_name p.on_ keys) p.lsuffix).map
      Prod.snd).Nodup)
    (hnr : lk.name ∉ (suffixed_right_names (outer_fill p.how keys lres rres)
      rres (key_columns_with_same_name p.on_ keys) p.rsuffix).map
      Prod.snd) :
    (merge_results p keys oc lres rres).data.lookup lk.name =
      some ((outer_fill p.how keys lres rres).dataGet lk.name) := by
  show ((suffixed_right_names (outer_fill p.how keys lres rres) rres
      (key_columns_with_same_name p.on_ keys) p.rsuffix).foldl
      (fun acc q => alSet acc q.2 (rres.dataGet q.1))
      ((suffixed_left_names (outer_fill p.how keys lres rres) rres
        (key_columns_with_same_name p.on_ keys) p.lsuffix).foldl
        (fun acc q => alSet acc q.2
          ((outer_fill p.how keys lres rres).dataGet q.1)) [])).lookup
      lk.name = _
  rw [foldl_alSet_lookup_not_mem _ _ _ _ hnr]
  have hpair : (lk.name, lk.name) ∈
      suffixed_left_names (outer_fill p.how keys lres rres) rres
        (key_columns_with_same_name p.on_ keys) p.lsuffix := by
    unfold suffixed_left_names
    refine List.mem_map.mpr ⟨lk.name, hl, ?_⟩
    rw [if_neg]
    intro hc
    exact hc.2 hkn
  exact foldl_alSet_lookup_write _ _ _ _ _ hndl hpair

/-- C2: for every outer join and every positionally paired key pair with
identical names (writing distinct slots), the assembler replaces the left
result's key column by its fill-from-right: each cell keeps the left
value and each null takes the right result's value at the same position;
when the pair is a same-named column key, the assembled output carries
exactly that filled column under the key's name (the right copy is
dropped by the renaming step). -/
theorem C2_outer_key_fill (p : MergeParams)
    (keys : List (Indexer × Indexer)) (oc : PyClass) (lres rres : Frame)
    (lk rk : Indexer)
    (hhow : p.how = "outer")
    (hmem : (lk, rk) ∈ keys) (hname : lk.name = rk.name)
    (hnd : (keys.map (fun q => slotOf q.1)).Nodup)
    (hsome : lk.index = true → lres.index.isSome = true) :
    lk.get (outer_fill p.how keys lres rres) =
      (lk.get lres).fillna (rk.get rres) ∧
    (∀ i, i < (lk.get lres).values.length →
      (lk.get (outer_fill p.how keys lres rres)).values.getD i none =
        (match (lk.get lres).values.getD i none with
         | some v => some v
         | none => (rk.get rres).values.getD i none)) ∧
    ((key_columns_with_same_name p.on_ keys).contains lk.name = true →
     lk.name ∈ (outer_fill p.how keys lres rres).names →
     lk.index = false →
     ((suffixed_left_names (outer_fill p.how keys lres rres) rres
       (key_columns_with_same_name p.on_ keys) p.lsuffix).map
       Prod.snd).Nodup →
     lk.name ∉ (suffixed_right_names (outer_fill p.how keys lres rres) rres
       (key_columns_with_same_name p.on_ keys) p.rsuffix).map Prod.snd →
     (merge_results p keys oc lres rres).data.lookup lk.name =
       some ((lk.get lres).fillna (rk.get rres))) := by
  have hfill : lk.get (outer_fill p.how keys lres rres) =
      (lk.get lres).fillna (rk.get rres) := by
    rw [outer_fill, if_pos hhow]
    have := keyFold_get_write Prod.fst
      (fun q => q.1.name = q.2.name)
      (fun q acc => (q.1.get acc).fillna (q.2.get rres))
      keys lres (lk, rk) hnd hmem (by simp [hname]) hsome
      (fun f1 f2 hg => by dsimp only; rw [hg])
    exact this
  refine ⟨hfill, ?_, ?_⟩
  · intro i hi
    rw [hfill]
    exact Column.fillna_getD (lk.get lres) (rk.get rres) i hi
  · intro hkn hl hcol hndl hnr
    rw [merge_results_lookup_key p keys oc lres rres lk hkn hl hndl hnr]
    have : (outer_fill p.how keys lres rres).dataGet lk.name =
        lk.get (outer_fill p.how keys lres rres) := by
      rw [Indexer.get, if_neg (by rw [hcol]; exact Bool.false_ne_true)]
    rw [this, hfill]

/-- Witness for C2 at a concrete input. -/
theorem C2_outer_key_fill_witness :
    (merge_results pOuter
      [(Indexer.mk "k" false, Indexer.mk "k" false)] PyClass.dataFrame
      frO1 frO2).data.lookup "k" = some (intCol [some 1, some 3]) := by
  have h := C2_outer_key_fill pOuter
    [(Indexer.mk "k" false, Indexer.mk "k" false)] PyClass.dataFrame
    frO1 frO2 (Indexer.mk "k" false) (Indexer.mk "k" false)
    rfl (by decide) rfl (by decide) (by decide)
  rw [h.2.2 (by decide) (by decide) rfl (by decide) (by decide)]
  decide

theorem suffixed_left_names_snd (lres rres : Frame) (kn : PySeq)
    (ls : Option String) :
    (suffixed_left_names lres rres kn ls).map Prod.snd =
      left_output_names lres.names rres.names kn ls := by
  unfold suffixed_left_names left_output_names
  rw [List.map_map]
  apply List.map_congr_left
  intro n _
  by_cases hc : n ∈ rres.names ∧ ¬(kn.contains n = true)
  · rw [Function.comp_apply, if_pos hc, if_pos hc]
  · rw [Function.comp_apply, if_neg hc, if_neg hc]

theorem suffixed_right_names_snd (lres rres : Frame) (kn : PySeq)
    (rs : Option String) :
    (suffixed_right_names lres rres kn rs).map Prod.snd =
      right_output_names lres.names rres.names kn rs := by
  unfold suffixed_right_names right_output_names
  rw [List.map_filterMap]
  apply List.filterMap_congr
  intro n _
  by_cases h1 : n ∈ lres.names
  · by_cases h2 : kn.contains n = true
    · rw [if_pos h1, if_pos h2, if_pos h1, if_pos h2]
      rfl
    · rw [if_pos h1, if_neg h2, if_pos h1, if_neg h2]
      rfl
  · rw [if_neg h1, if_neg h1]
    rfl

theorem match_key_dtypes_names_right
    (matchKeys : Column → Column → String → Option Dtype) (how : String)
    (keys : List (Indexer × Indexer)) (lhs rhs : Frame)
    (h : ∀ q ∈ keys, q.2.index = true ∨ q.2.name ∈ rhs.names) :
    (match_key_dtypes matchKeys how keys lhs rhs).2.names = rhs.names :=
  keyFold_names _ _ _ keys rhs (fun q hq _ => h q hq)

theorem restore_categorical_keys_names_right (how : String)
    (keys : List (Indexer × Indexer)) (lhs0 rhs0 lhs rhs : Frame)
    (h : ∀ q ∈ keys, q.2.index = true ∨ q.2.name ∈ rhs.names) :
    (restore_categorical_keys how keys lhs0 rhs0 lhs rhs).2.names =
      rhs.names := by
  unfold restore_categorical_keys
  by_cases hi : how = "inner"
  · rw [if_pos hi]
    exact keyFold_names _ _ _ keys rhs (fun q hq _ => h q hq)
  · rw [if_neg hi]

theorem restore_categorical_keys_get_left (how : String)
    (keys : List (Indexer × Indexer)) (lhs0 rhs0 l r : Frame)
    (lk rk : Indexer) (hhow : how = "inner")
    (hmem : (lk, rk) ∈ keys)
    (hcatl : (lk.get lhs0).dtype = Dtype.cat)
    (hcatr : (rk.get rhs0).dtype = Dtype.cat)
    (hnd : (keys.map (fun q => slotOf q.1)).Nodup)
    (hsome : lk.index = true → l.index.isSome = true) :
    lk.get (restore_categorical_keys how keys lhs0 rhs0 l r).1 =
      (lk.get l).astype Dtype.cat := by
  rw [hhow]
  unfold restore_categorical_keys
  rw [if_pos rfl]
  dsimp only
  exact keyFold_get_write Prod.fst
    (fun q => (q.1.get lhs0).dtype = Dtype.cat ∧
              (q.2.get rhs0).dtype = Dtype.cat)
    (fun q acc => (q.1.get acc).astype Dtype.cat)
    keys l (lk, rk) hnd hmem (by simp [hcatl, hcatr]) hsome
    (fun f1 f2 hg => by dsimp only; rw [hg])

theorem lookup_eq_dataGet (f : Frame) (n : ColName) (h : n ∈ f.names) :
    f.data.lookup n = some (f.dataGet n) := by
  have hs := lookup_isSome_of_mem f.data n h
  cases hx : f.data.lookup n with
  | none => rw [hx] at hs; exact Bool.noConfusion hs
  | some c => rw [Frame.dataGet, hx]; rfl

theorem sort_result_lookup_dtype (p : MergeParams) (f : Frame)
    (n : ColName) :
    ((sort_result p f).data.lookup n).map Column.dtype =
      (f.data.lookup n).map Column.dtype := by
  unfold sort_result
  split
  · rw [Frame.gather_lookup]
    cases f.data.lookup n <;> rfl
  · split
    · rw [Frame.gather_lookup]
      cases f.data.lookup n <;> rfl
    · rfl

theorem perform_merge_lookup_dtype
    (joiner : Frame → Frame → List Nat → List Nat → String →
      List (Option Nat) × List (Option Nat))
    (matchKeys : Column → Column → String → Option Dtype)
    (semi : Bool) (lhs rhs : Frame) (p : MergeParams)
    (keys : List (Indexer × Indexer)) (n : ColName) :
    ((perform_merge joiner matchKeys semi lhs rhs p keys).data.lookup
      n).map Column.dtype =
    ((perform_merge_core joiner matchKeys semi lhs rhs p
      keys).data.lookup n).map Column.dtype := by
  unfold perform_merge
  cases hs : p.sort
  · rfl
  · show ((sort_result p (perform_merge_core joiner matchKeys semi lhs rhs
      p keys)).data.lookup n).map Column.dtype = _
    exact sort_result_lookup_dtype p _ n

theorem dataGet_eq_get (lk : Indexer) (f : Frame)
    (hcol : lk.index = false) : f.dataGet lk.name = lk.get f := by
  rw [Indexer.get, if_neg (by rw [hcol]; exact Bool.false_ne_true)]

theorem Frame.gather_dataGet_dtype (f : Frame) (rows : List (Option Nat))
    (ki : Bool) (n : ColName) (h : n ∈ f.names) :
    ((f.gather rows ki).dataGet n).dtype = (f.dataGet n).dtype := by
  rw [Frame.dataGet, Frame.gather_lookup, lookup_eq_dataGet f n h]
  rfl

theorem merge_results_key_dtype (p : MergeParams)
    (keys : List (Indexer × Indexer)) (oc : PyClass) (lres rres : Frame)
    (lk : Indexer)
    (hnotouter : p.how ≠ "outer")
    (hkn : (key_columns_with_same_name p.on_ keys).contains lk.name = true)
    (hl : lk.name ∈ lres.names)
    (hndl : (left_output_names lres.names rres.names
      (key_columns_with_same_name p.on_ keys) p.lsuffix).Nodup)
    (hnr : lk.name ∉ right_output_names lres.names rres.names
      (key_columns_with_same_name p.on_ keys) p.rsuffix)
    (hdt : (lres.dataGet lk.name).dtype = Dtype.cat) :
    ((merge_results p keys oc lres rres).data.lookup lk.name).map
      Column.dtype = some Dtype.cat := by
  have hid : outer_fill p.how keys lres rres = lres := by
    rw [outer_fill, if_neg hnotouter]
  rw [merge_results_lookup_key p keys oc lres rres lk hkn
    (by rw [hid]; exact hl)
    (by rw [hid, suffixed_left_names_snd]; exact hndl)
    (by rw [hid, suffixed_right_names_snd]; exact hnr)]
  rw [hid, Option.map_some', hdt]

/-- C4: for every inner join in which a positionally paired column key is
categorical dtype on both original inputs, the result's key column
(under the key's name) has categorical dtype, restored by the
cast-back after the coerced-codes comparison; and for every join kind
other than inner the restoration step is the identity on the coerced
frames. -/
theorem C4_categorical_roundtrip
    (joiner semiJoiner : Frame → Frame → List Nat → List Nat → String →
      List (Option Nat) × List (Option Nat))
    (matchKeys : Column → Column → String → Option Dtype)
    (lhs rhs : Frame) (p : MergeParams) (res : Frame)
    (ks : List Indexer × List Indexer) (lk rk : Indexer)
    (hhow : p.how = "inner")
    (hk : compute_join_keys lhs rhs p = Except.ok ks)
    (h : merge joiner semiJoiner matchKeys lhs rhs p = Except.ok res)
    (hmem : (lk, rk) ∈ ks.1.zip ks.2)
    (hcol : lk.index = false)
    (hcatl : (lk.get lhs).dtype = Dtype.cat)
    (hcatr : (rk.get rhs).dtype = Dtype.cat)
    (hndL : ((ks.1.zip ks.2).map (fun q => slotOf q.1)).Nodup)
    (hkeyL : ∀ q ∈ ks.1.zip ks.2, q.1.index = true ∨ q.1.name ∈ lhs.names)
    (hkeyR : ∀ q ∈ ks.1.zip ks.2, q.2.index = true ∨ q.2.name ∈ rhs.names)
    (hkn : (key_columns_with_same_name p.on_ (ks.1.zip ks.2)).contains
      lk.name = true)
    (hnds : (left_output_names lhs.names rhs.names
      (key_columns_with_same_name p.on_ (ks.1.zip ks.2)) p.lsuffix).Nodup)
    (hnrs : lk.name ∉ right_output_names lhs.names rhs.names
      (key_columns_with_same_name p.on_ (ks.1.zip ks.2)) p.rsuffix) :
    (res.data.lookup lk.name).map Column.dtype = some Dtype.cat ∧
    (∀ (how : String) (keys : List (Indexer × Indexer))
       (lhs0 rhs0 l r : Frame), how ≠ "inner" →
       restore_categorical_keys how keys lhs0 rhs0 l r = (l, r)) := by
  refine ⟨?_, fun how keys lhs0 rhs0 l r hni => by
    unfold restore_categorical_keys
    rw [if_neg hni]⟩
  obtain ⟨hv, ks2, hk2, hres⟩ :=
    merge_ok_shape joiner semiJoiner matchKeys lhs rhs p res h
  rw [hk] at hk2
  injection hk2 with hkseq
  subst hkseq
  have hsemiB : is_semi p = false := by simp [is_semi, hhow]
  have hnameL : lk.name ∈ lhs.names := by
    rcases hkeyL (lk, rk) hmem with hc | hc
    · exact absurd hc (by rw [hcol]; exact Bool.false_ne_true)
    · exact hc
  have hmnL : (match_key_dtypes matchKeys p.how (ks.1.zip ks.2) lhs
      rhs).1.names = lhs.names :=
    match_key_dtypes_names_left matchKeys p.how (ks.1.zip ks.2) lhs rhs hkeyL
  have hmnR : (match_key_dtypes matchKeys p.how (ks.1.zip ks.2) lhs
      rhs).2.names = rhs.names :=
    match_key_dtypes_names_right matchKeys p.how (ks.1.zip ks.2) lhs rhs
      hkeyR
  have hrnL : (restore_categorical_keys p.how (ks.1.zip ks.2) lhs rhs
      (match_key_dtypes matchKeys p.how (ks.1.zip ks.2) lhs rhs).1
      (match_key_dtypes matchKeys p.how (ks.1.zip ks.2) lhs rhs).2).1.names
      = lhs.names := by
    rw [restore_categorical_keys_names_left p.how (ks.1.zip ks.2) lhs rhs
      _ _ (fun q hq => by rw [hmnL]; exact hkeyL q hq)]
    exact hmnL
  have hrnR : (restore_categorical_keys p.how (ks.1.zip ks.2) lhs rhs
      (match_key_dtypes matchKeys p.how (ks.1.zip ks.2) lhs rhs).1
      (match_key_dtypes matchKeys p.how (ks.1.zip ks.2) lhs rhs).2).2.names
      = rhs.names := by
    rw [restore_categorical_keys_names_right p.how (ks.1.zip ks.2) lhs rhs
      _ _ (fun q hq => by rw [hmnR]; exact hkeyR q hq)]
    exact hmnR
  rw [hres, hsemiB, if_neg Bool.false_ne_true, perform_merge_lookup_dtype]
  unfold perform_merge_core
  dsimp only
  rw [if_neg Bool.false_ne_true]
  refine merge_results_key_dtype p (ks.1.zip ks.2) _ _ _ lk
    (by rw [hhow]; decide) hkn ?_ ?_ ?_ ?_
  · rw [Frame.gather_names, hrnL]
    exact hnameL
  · rw [Frame.gather_names, Frame.gather_names, hrnL, hrnR]
    exact hnds
  · rw [Frame.gather_names, Frame.gather_names, hrnL, hrnR]
    exact hnrs
  · rw [Frame.gather_dataGet_dtype _ _ _ _ (by rw [hrnL]; exact hnameL)]
    rw [dataGet_eq_get lk _ hcol]
    rw [restore_categorical_keys_get_left p.how (ks.1.zip ks.2) lhs rhs
      _ _ lk rk hhow hmem hcatl hcatr hndL
      (fun hc => absurd hc (by rw [hcol]; exact Bool.false_ne_true))]
    rfl

/-- Witness for C4 at a concrete input. -/
theorem C4_categorical_roundtrip_witness :
    (merge joinerNil joinerNil matchNone frCl frCr pSuf).map
      (fun f => (f.data.lookup "k").map Column.dtype) =
      Except.ok (some Dtype.cat) := by
  have hok : isOkB (merge joinerNil joinerNil matchNone frCl frCr pSuf) =
      true := by decide
  cases hm : merge joinerNil joinerNil matchNone frCl frCr pSuf with
  | error e => rw [hm] at hok; exact Bool.noConfusion hok
  | ok res =>
    have hd := C4_categorical_roundtrip joinerNil joinerNil matchNone
      frCl frCr pSuf res
      ([Indexer.mk "k" false], [Indexer.mk "k" false])
      (Indexer.mk "k" false) (Indexer.mk "k" false)
      rfl (by decide) hm (by decide) rfl (by decide) (by decide)
      (by decide)
      (by intro q hq
          fin_cases hq
          right
          decide)
      (by intro q hq
          fin_cases hq
          right
          decide)
      (by decide) (by decide) (by decide)
    simp only [Except.map]
    rw [hd.1]

/-- C7 counterexample: for an Index-classed result the code sorts by all
of the result's own columns (`result._get_sorted_inds()` with no `by`),
not by the `on` columns, and the two orderings differ on `frMI`. -/
theorem C7_counterexample :
    pC7.sort = true ∧ pyTruthy pC7.on_ = true ∧
    sort_result pC7 frMI ≠ sort_result_claim pC7 frMI := by
  decide

/-- C7 amended: the sort stage behaves as the claim describes except
that a result that is an Index is gathered by the stable ordering over
all of its own columns rather than the `on` columns; the stage is
skipped entirely when `sort=False` (the pipeline never calls it) or when
the non-`on` key-column list is empty. -/
theorem C7_sort_stage_amended (p : MergeParams) (result : Frame) :
    (sort_result p result =
      (if pyTruthy p.on_ then
        (if result.cls.isIndex then
          result.gather ((result.get_sorted_inds none).map some) false
        else sort_result_claim p result)
      else sort_result_claim p result)) ∧
    (∀ (joiner : Frame → Frame → List Nat → List Nat → String →
        List (Option Nat) × List (Option Nat))
       (matchKeys : Column → Column → String → Option Dtype)
       (semi : Bool) (lhs rhs : Frame) (keys : List (Indexer × Indexer)),
      p.sort = false →
      perform_merge joiner matchKeys semi lhs rhs p keys =
        perform_merge_core joiner matchKeys semi lhs rhs p keys) ∧
    (pyTruthy p.on_ = false → sort_by_columns p result = [] →
      sort_result p result = result) := by
  refine ⟨?_, ?_, ?_⟩
  · unfold sort_result sort_result_claim
    by_cases h1 : pyTruthy p.on_ = true
    · rw [if_pos h1, if_pos h1]
      dsimp only
      by_cases h2 : result.cls.isIndex = true
      · rw [if_pos h2, if_pos h2]
      · rw [if_neg h2, if_neg h2, if_pos h1]
    · rw [if_neg h1, if_neg h1, if_neg h1]
  · intro joiner matchKeys semi lhs rhs keys hs
    unfold perform_merge
    rw [if_neg (by rw [hs]; exact Bool.false_ne_true)]
  · intro h1 h2
    unfold sort_result
    rw [if_neg (by rw [h1]; exact Bool.false_ne_true),
      if_neg (not_not_intro h2)]

/-- Witness for C7's amended theorem at concrete inputs. -/
theorem C7_sort_stage_amended_witness :
    sort_result pC7 frA = sort_result_claim pC7 frA ∧
    perform_merge joinerNil matchNone false frA frB baseParams [] =
      perform_merge_core joinerNil matchNone false frA frB baseParams [] ∧
    sort_result baseParams frA = frA := by
  refine ⟨?_, ?_, ?_⟩
  · rw [(C7_sort_stage_amended pC7 frA).1]
    decide
  · exact (C7_sort_stage_amended baseParams frA).2.1 joinerNil matchNone
      false frA frB [] rfl
  · exact (C7_sort_stage_amended baseParams frA).2.2 (by decide)
      (by decide)

end CudfJoin
